import Mathlib

/-! Concurrency cache (`backend/internal/repository/concurrency_cache.go`).

A shallow embedding of the Redis-backed admission control of the repository:

* the two kinds of key the component stores (a sorted set per account / user,
  an integer counter per user), with the Redis commands the Lua scripts call;
* the four Lua scripts `acquireScript`, `getCountScript`,
  `incrementWaitScript`, `decrementWaitScript`;
* the Go methods of `concurrencyCache` that run them.

Time is the store clock in whole seconds (`redis.call('TIME')[1]`); every
script receives it as the argument `now`.  Numbers are mathematical integers.
A command the store refuses raises an error in the script, which stops there:
what it has written so far stays written and the caller gets the error.
-/

deriving instance DecidableEq for Except

namespace ConcurrencyCache

/-! ## The range of `EXPIRE` -/

/-- The largest 64-bit signed integer, in which the store keeps deadlines (in
milliseconds). -/
def llongMax : Int := 9223372036854775807

/-- Whether the store accepts `EXPIRE key seconds` at store time `now`.  It
refuses a timeout whose conversion to milliseconds leaves the 64-bit range
(`seconds > LLONG_MAX / 1000` or `seconds < LLONG_MIN / 1000`), and one whose
deadline does: `seconds * 1000 > LLONG_MAX - clock`, the clock being `now`
seconds and up to 999 milliseconds. -/
def expireAccepts (now seconds : Int) : Bool :=
  decide (-(llongMax / 1000) ≤ seconds) && decide (seconds ≤ llongMax / 1000) &&
    decide ((now + seconds) * 1000 + 999 ≤ llongMax)

/-- The error reply of a refused `EXPIRE` (what matters below is that it is an
error, not its text). -/
def expireError : String := "ERR invalid expire time in expire command"

/-! ## Sorted-set keys -/

/-- One sorted-set key of the store (`concurrency:account:{id}` or
`concurrency:user:{id}`): the members with their scores, in insertion order,
and the key's expiry deadline (store-clock seconds) when one is set.
A key that does not exist is the one with no member and no deadline. -/
structure SortedSetKey where
  members : List (String × Int)
  expireAt : Option Int
deriving DecidableEq, Repr

namespace SortedSetKey

/-- The key that does not exist. -/
def absent : SortedSetKey := ⟨[], none⟩

/-- Well-formed keys: a request identifier occurs at most once, and a key
without members does not exist (so it carries no deadline). -/
def WF (k : SortedSetKey) : Prop :=
  (k.members.map Prod.fst).Nodup ∧ (k.members = [] → k.expireAt = none)

instance (k : SortedSetKey) : Decidable k.WF := by
  unfold WF; exact inferInstance

/-- Redis removes a sorted set as soon as its last member is removed; the
deadline goes with the key. -/
def ofMembers (ms : List (String × Int)) (expireAt : Option Int) : SortedSetKey :=
  if ms = [] then absent else ⟨ms, expireAt⟩

/-- Redis `ZSCORE key member`: the score of `member`, `none` (Lua `false`) when it is
not a member. -/
def ZSCORE (k : SortedSetKey) (member : String) : Option Int :=
  k.members.lookup member

/-- Redis `ZCARD key`. -/
def ZCARD (k : SortedSetKey) : Int :=
  k.members.length

/-- Redis `ZREMRANGEBYSCORE key -inf max`: removes every member whose score lies in
the closed range, i.e. `score ≤ max`. -/
def ZREMRANGEBYSCORE (k : SortedSetKey) (max : Int) : SortedSetKey :=
  ofMembers (k.members.filter (fun e => ¬ e.2 ≤ max)) k.expireAt

/-- Redis `ZREM key member`. -/
def ZREM (k : SortedSetKey) (member : String) : SortedSetKey :=
  ofMembers (k.members.filter (fun e => e.1 ≠ member)) k.expireAt

/-- Redis `ZADD key score member`: updates the score of an existing member, adds the
member otherwise (creating the key, without deadline, when it does not exist).
The deadline of an existing key is kept. -/
def ZADD (k : SortedSetKey) (score : Int) (member : String) : SortedSetKey :=
  match k.members.lookup member with
  | some _ =>
    ⟨k.members.map (fun e => if e.1 = member then (member, score) else e), k.expireAt⟩
  | none => ⟨k.members ++ [(member, score)], k.expireAt⟩

/-- What an accepted `EXPIRE key seconds` does at store time `now`: nothing when
the key does not exist; a non-positive timeout deletes the key at once;
otherwise the deadline becomes `now + seconds`. -/
def expireEffect (k : SortedSetKey) (now seconds : Int) : SortedSetKey :=
  if k.members = [] then k
  else if seconds ≤ 0 then absent
  else ⟨k.members, some (now + seconds)⟩

/-- Redis `EXPIRE key seconds` issued at store time `now`: an error, the key
left as it is, when the store refuses the timeout (`expireAccepts`); the key
after `expireEffect` otherwise. -/
def EXPIRE (k : SortedSetKey) (now seconds : Int) : Except String SortedSetKey :=
  if expireAccepts now seconds then .ok (expireEffect k now seconds)
  else .error expireError

/-- What the store does to a key before any command touches it at time `now`:
a key whose deadline has been reached no longer exists. -/
def expireIfNeeded (k : SortedSetKey) (now : Int) : SortedSetKey :=
  match k.expireAt with
  | some deadline => if deadline ≤ now then absent else k
  | none => k

end SortedSetKey

open SortedSetKey

/-- Lua `acquireScript` (lines 42-73).  `KEYS[1]` is the key `k`;
`ARGV = [maxConcurrency, ttl, requestID]`; `now` is `TIME[1]`.
Returns the key after the script and the outcome of the run: the reply (1 or
0), or the error of a refused `EXPIRE`, raised after the `ZADD` has been
applied. -/
def acquireScript (now : Int) (k : SortedSetKey) (maxConcurrency ttl : Int)
    (requestID : String) : SortedSetKey × Except String Int :=
  let expireBefore := now - ttl
  let k := ZREMRANGEBYSCORE k expireBefore
  match ZSCORE k requestID with
  | some _ =>
    let k := ZADD k now requestID
    match EXPIRE k now ttl with
    | .ok k => (k, .ok 1)
    | .error err => (k, .error err)
  | none =>
    let count := ZCARD k
    if count < maxConcurrency then
      let k := ZADD k now requestID
      match EXPIRE k now ttl with
      | .ok k => (k, .ok 1)
      | .error err => (k, .error err)
    else
      (k, .ok 0)

/-- Lua `getCountScript` (lines 79-90).  `ARGV = [ttl]`. -/
def getCountScript (now : Int) (k : SortedSetKey) (ttl : Int) : SortedSetKey × Int :=
  let expireBefore := now - ttl
  let k := ZREMRANGEBYSCORE k expireBefore
  (k, ZCARD k)

/-! ## Wait-counter keys -/

/-- An existing counter key `concurrency:wait:{id}`: its integer value and its
expiry deadline when one is set. -/
structure Counter where
  value : Int
  expireAt : Option Int
deriving DecidableEq, Repr

/-- One counter key of the store; `none` is the key that does not exist. -/
abbrev WaitKey := Option Counter

namespace WaitKey

/-- Redis `GET key`: the value, `none` (Lua `false`) when the key does not exist. -/
def GET (k : WaitKey) : Option Int :=
  k.map Counter.value

/-- Redis `INCR key`: a key that does not exist is created at 0 (without deadline)
before the increment; the deadline of an existing key is kept.  Returns the
key and the new value. -/
def INCR (k : WaitKey) : WaitKey × Int :=
  match k with
  | none => (some ⟨1, none⟩, 1)
  | some c => (some ⟨c.value + 1, c.expireAt⟩, c.value + 1)

/-- Redis `DECR key`, the mirror image of `INCR`. -/
def DECR (k : WaitKey) : WaitKey × Int :=
  match k with
  | none => (some ⟨-1, none⟩, -1)
  | some c => (some ⟨c.value - 1, c.expireAt⟩, c.value - 1)

/-- What an accepted `EXPIRE key seconds` does at store time `now` (same rule
as for sorted sets). -/
def expireEffect (k : WaitKey) (now seconds : Int) : WaitKey :=
  match k with
  | none => none
  | some c => if seconds ≤ 0 then none else some ⟨c.value, some (now + seconds)⟩

/-- Redis `EXPIRE key seconds` issued at store time `now`: an error, the key
left as it is, when the store refuses the timeout; the key after
`expireEffect` otherwise. -/
def EXPIRE (k : WaitKey) (now seconds : Int) : Except String WaitKey :=
  if expireAccepts now seconds then .ok (expireEffect k now seconds)
  else .error expireError

/-- A counter key whose deadline has been reached no longer exists. -/
def expireIfNeeded (k : WaitKey) (now : Int) : WaitKey :=
  match k with
  | none => none
  | some c =>
    match c.expireAt with
    | some deadline => if deadline ≤ now then none else some c
    | none => some c

/-- The counter as a number: a key that does not exist reads as 0. -/
def count (k : WaitKey) : Int :=
  (GET k).getD 0

/-- The deadline of the key, `none` when the key does not exist or never
expires. -/
def deadline (k : WaitKey) : Option Int :=
  k.bind Counter.expireAt

end WaitKey

/-- Lua `incrementWaitScript` (lines 96-116).  `ARGV = [maxWait, ttl]`.
Returns the key after the script and the outcome of the run: the reply, or the
error of a refused `EXPIRE`, raised after the `INCR` has been applied. -/
def incrementWaitScript (now : Int) (k : WaitKey) (maxWait ttl : Int) :
    WaitKey × Except String Int :=
  let current : Int :=
    match WaitKey.GET k with
    | none => 0
    | some v => v
  if current ≥ maxWait then
    (k, .ok 0)
  else
    let r := WaitKey.INCR k
    let newVal := r.2
    if newVal = 1 then
      match WaitKey.EXPIRE r.1 now ttl with
      | .ok k => (k, .ok 1)
      | .error err => (r.1, .error err)
    else
      (r.1, .ok 1)

/-- Lua `decrementWaitScript` (lines 119-125). -/
def decrementWaitScript (k : WaitKey) : WaitKey × Int :=
  match WaitKey.GET k with
  | some current => if current > 0 then ((WaitKey.DECR k).1, 1) else (k, 1)
  | none => (k, 1)

/-! ## The Go methods -/

/-- Go `concurrencyCache` (the store handle `rdb` is the key passed to each
method). -/
structure concurrencyCache where
  slotTTLSeconds : Int
deriving DecidableEq, Repr

/-- What `Script.Run(...).Int()` hands back: an error (of the transport, or
raised by the script) or the script's integer reply. -/
abbrev RunResult := Except String Int

/-- The tail shared by `AcquireAccountSlot`, `AcquireUserSlot` and
`IncrementWaitCount`: `if err != nil { return false, err }` then
`return result == 1, nil`. -/
def grantedOf : RunResult → Bool × Option String
  | .error err => (false, some err)
  | .ok result => (result == 1, none)

/-- The tail of `GetAccountConcurrency` / `GetUserConcurrency`:
`if err != nil { return 0, err }` then `return result, nil`. -/
def countOf : RunResult → Int × Option String
  | .error err => (0, some err)
  | .ok result => (result, none)

/-- The tail of the release and decrement methods: the error alone. -/
def errOf : RunResult → Option String
  | .error err => some err
  | .ok _ => none

/-- Go `AcquireAccountSlot` on a store that is reached: the key after the call
and the Go result `(granted, err)`, from the outcome of the script run. -/
def AcquireAccountSlot (c : concurrencyCache) (now : Int) (k : SortedSetKey)
    (maxConcurrency : Int) (requestID : String) : SortedSetKey × (Bool × Option String) :=
  let r := acquireScript now k maxConcurrency c.slotTTLSeconds requestID
  (r.1, grantedOf r.2)

/-- Go `ReleaseAccountSlot`: a plain `ZREM`, whose reply is the number of members
removed. -/
def ReleaseAccountSlot (k : SortedSetKey) (requestID : String) :
    SortedSetKey × Option String :=
  let k' := ZREM k requestID
  (k', errOf (.ok (ZCARD k - ZCARD k')))

/-- Go `GetAccountConcurrency` on a store that is reached (the script calls no
command that can be refused). -/
def GetAccountConcurrency (c : concurrencyCache) (now : Int) (k : SortedSetKey) :
    SortedSetKey × (Int × Option String) :=
  let r := getCountScript now k c.slotTTLSeconds
  (r.1, countOf (.ok r.2))

/-- Go `AcquireUserSlot`: the same script on the user's key. -/
def AcquireUserSlot (c : concurrencyCache) (now : Int) (k : SortedSetKey)
    (maxConcurrency : Int) (requestID : String) : SortedSetKey × (Bool × Option String) :=
  let r := acquireScript now k maxConcurrency c.slotTTLSeconds requestID
  (r.1, grantedOf r.2)

/-- Go `ReleaseUserSlot`. -/
def ReleaseUserSlot (k : SortedSetKey) (requestID : String) :
    SortedSetKey × Option String :=
  let k' := ZREM k requestID
  (k', errOf (.ok (ZCARD k - ZCARD k')))

/-- Go `GetUserConcurrency`. -/
def GetUserConcurrency (c : concurrencyCache) (now : Int) (k : SortedSetKey) :
    SortedSetKey × (Int × Option String) :=
  let r := getCountScript now k c.slotTTLSeconds
  (r.1, countOf (.ok r.2))

/-- Go `IncrementWaitCount` on a store that is reached. -/
def IncrementWaitCount (c : concurrencyCache) (now : Int) (k : WaitKey) (maxWait : Int) :
    WaitKey × (Bool × Option String) :=
  let r := incrementWaitScript now k maxWait c.slotTTLSeconds
  (r.1, grantedOf r.2)

/-- Go `DecrementWaitCount` on a store that is reached. -/
def DecrementWaitCount (k : WaitKey) : WaitKey × Option String :=
  let r := decrementWaitScript k
  (r.1, errOf (.ok r.2))

/-! ## Sequences of calls against one key -/

/-- One call against a scope's ledger, with the store time at which it runs. -/
inductive LedgerCall where
  | acquire (now : Int) (maxConcurrency : Int) (requestID : String)
  | release (now : Int) (requestID : String)
  | getConcurrency (now : Int)
deriving DecidableEq, Repr

/-- What a ledger call answers. -/
inductive LedgerReply where
  | granted (ok : Bool)
  | released
  | count (n : Int)
deriving DecidableEq, Repr

/-- One call: the store first drops the key if its deadline has been reached,
then the method runs. -/
def ledgerStep (c : concurrencyCache) (k : SortedSetKey) :
    LedgerCall → SortedSetKey × LedgerReply
  | .acquire now maxConcurrency requestID =>
    let r := AcquireAccountSlot c now (expireIfNeeded k now) maxConcurrency requestID
    (r.1, .granted r.2.1)
  | .release now requestID =>
    ((ReleaseAccountSlot (expireIfNeeded k now) requestID).1, .released)
  | .getConcurrency now =>
    let r := GetAccountConcurrency c now (expireIfNeeded k now)
    (r.1, .count r.2.1)

/-- The key after a sequence of calls. -/
def ledgerRun (c : concurrencyCache) (k : SortedSetKey) : List LedgerCall → SortedSetKey
  | [] => k
  | call :: rest => ledgerRun c (ledgerStep c k call).1 rest

/-- The answers of a sequence of calls, in order. -/
def ledgerReplies (c : concurrencyCache) (k : SortedSetKey) :
    List LedgerCall → List LedgerReply
  | [] => []
  | call :: rest => (ledgerStep c k call).2 :: ledgerReplies c (ledgerStep c k call).1 rest

/-- Every acquire of the sequence passes `maxConcurrency = M`. -/
def allAcquireWith (M : Int) (calls : List LedgerCall) : Bool :=
  calls.all fun call =>
    match call with
    | .acquire _ maxConcurrency _ => maxConcurrency == M
    | _ => true

/-- The members of a key that a sweep at time `now` would keep. -/
def liveCount (k : SortedSetKey) (now ttl : Int) : Int :=
  (k.members.filter (fun e => ¬ e.2 ≤ now - ttl)).length

/-- One call against a user's wait counter. -/
inductive WaitCall where
  | increment (now : Int) (maxWait : Int)
  | decrement (now : Int)
deriving DecidableEq, Repr

/-- One wait-counter call, after the store's own expiry of the key. -/
def waitStep (c : concurrencyCache) (k : WaitKey) : WaitCall → WaitKey × Option Bool
  | .increment now maxWait =>
    let r := IncrementWaitCount c now (WaitKey.expireIfNeeded k now) maxWait
    (r.1, some r.2.1)
  | .decrement now => ((DecrementWaitCount (WaitKey.expireIfNeeded k now)).1, none)

/-- The counter key after a sequence of calls. -/
def waitRun (c : concurrencyCache) (k : WaitKey) : List WaitCall → WaitKey
  | [] => k
  | call :: rest => waitRun c (waitStep c k call).1 rest

/-- The answers of a sequence of wait-counter calls (`none` for a decrement). -/
def waitReplies (c : concurrencyCache) (k : WaitKey) : List WaitCall → List (Option Bool)
  | [] => []
  | call :: rest => (waitStep c k call).2 :: waitReplies c (waitStep c k call).1 rest

/-- Every increment of the sequence passes `maxWait = W`. -/
def allIncrementWith (W : Int) (calls : List WaitCall) : Bool :=
  calls.all fun call =>
    match call with
    | .increment _ maxWait => maxWait == W
    | _ => true

/-- The store time at which a call runs. -/
def LedgerCall.time : LedgerCall → Int
  | .acquire now _ _ => now
  | .release now _ => now
  | .getConcurrency now => now

/-- The calls run at store times that never go back, none before `t`. -/
def clockFrom (t : Int) : List LedgerCall → Bool
  | [] => true
  | call :: rest => decide (t ≤ call.time) && clockFrom call.time rest

/-- The store clock of a sequence of calls is non-decreasing. -/
def monotoneClock : List LedgerCall → Bool
  | [] => true
  | call :: rest => clockFrom call.time rest

/-- The store accepts the configured TTL as an `EXPIRE` timeout at the time of
every call of the sequence. -/
def timeoutAccepted (c : concurrencyCache) (calls : List LedgerCall) : Bool :=
  calls.all fun call => expireAccepts call.time c.slotTTLSeconds

/-- The store time at which a wait-counter call runs. -/
def WaitCall.time : WaitCall → Int
  | .increment now _ => now
  | .decrement now => now

/-- The store accepts the configured TTL as an `EXPIRE` timeout at the time of
every wait-counter call of the sequence. -/
def waitTimeoutAccepted (c : concurrencyCache) (calls : List WaitCall) : Bool :=
  calls.all fun call => expireAccepts call.time c.slotTTLSeconds

/-- The `maxConcurrency` of the most recent granted acquire of a sequence run
from the key `k` (`last` when the sequence has none). -/
def lastGrantedLimit (c : concurrencyCache) :
    SortedSetKey → Option Int → List LedgerCall → Option Int
  | _, last, [] => last
  | k, last, call :: rest =>
    let r := ledgerStep c k call
    let last' :=
      match call, r.2 with
      | .acquire _ maxConcurrency _, .granted true => some maxConcurrency
      | _, _ => last
    lastGrantedLimit c r.1 last' rest

/-- The `maxConcurrency` of the most recent granted acquire that admitted a
new identifier, i.e. one that was no member after the sweep (`last` when the
sequence has none). -/
def lastAdmittedLimit (c : concurrencyCache) :
    SortedSetKey → Option Int → List LedgerCall → Option Int
  | _, last, [] => last
  | k, last, call :: rest =>
    let r := ledgerStep c k call
    let last' :=
      match call, r.2 with
      | .acquire now maxConcurrency requestID, .granted true =>
        if ZSCORE (GetAccountConcurrency c now (expireIfNeeded k now)).1 requestID = none then
          some maxConcurrency
        else last
      | _, _ => last
    lastAdmittedLimit c r.1 last' rest

/-- The deadline of a key covers its members up to store time `t`: a key with
members carries a deadline `d`, not later than `t + ttl`, and `score + ttl ≤ d`
for every member. -/
def coveredUntil (k : SortedSetKey) (ttl t : Int) : Prop :=
  k.members ≠ [] →
    ∃ d : Int, k.expireAt = some d ∧ d ≤ t + ttl ∧ ∀ e ∈ k.members, e.2 + ttl ≤ d

/-! ## Construction and key names -/

/-- Go constant `defaultSlotTTLMinutes`. -/
def defaultSlotTTLMinutes : Int := 15

/-- Go `int` arithmetic: a result is reduced to the two's complement range of
an `int` of `bits` bits (64, or 32 on some platforms). -/
def wrapInt (bits : Nat) (x : Int) : Int :=
  (x + 2 ^ (bits - 1)) % 2 ^ bits - 2 ^ (bits - 1)

/-- Go `NewConcurrencyCache` (lines 135-143), for an `int` of `bits` bits. -/
def NewConcurrencyCache (bits : Nat) (slotTTLMinutes : Int) : concurrencyCache :=
  let slotTTLMinutes := if slotTTLMinutes ≤ 0 then defaultSlotTTLMinutes else slotTTLMinutes
  { slotTTLSeconds := wrapInt bits (slotTTLMinutes * 60) }

/-- Go constant `accountSlotKeyPrefix`. -/
def accountSlotKeyPrefix : String := "concurrency:account:"

/-- Go constant `userSlotKeyPrefix`. -/
def userSlotKeyPrefix : String := "concurrency:user:"

/-- Go constant `waitQueueKeyPrefix`. -/
def waitQueueKeyPrefix : String := "concurrency:wait:"

/-- Go `accountSlotKey`: `fmt.Sprintf("%s%d", accountSlotKeyPrefix, accountID)`.
The verb `%d` prints the decimal digits of the number, after a minus sign when
it is negative, as `toString` does. -/
def accountSlotKey (accountID : Int) : String :=
  accountSlotKeyPrefix ++ toString accountID

/-- Go `userSlotKey`. -/
def userSlotKey (userID : Int) : String :=
  userSlotKeyPrefix ++ toString userID

/-- Go `waitQueueKey`. -/
def waitQueueKey (userID : Int) : String :=
  waitQueueKeyPrefix ++ toString userID

/-- One command or script run against the store: it is given a single key
name (`KEYS[1]`), works on the state stored under that name and answers. -/
def atKey {σ α : Type} (key : String) (op : σ → σ × α) (store : String → σ) :
    (String → σ) × α :=
  (fun name => if name = key then (op (store key)).1 else store name, (op (store key)).2)

end ConcurrencyCache

namespace ConcurrencyCache
open SortedSetKey

/-! ## Lemmas on the sorted-set commands -/

theorem members_ofMembers (ms : List (String × Int)) (e : Option Int) :
    (ofMembers ms e).members = ms := by
  unfold ofMembers
  split
  · next h => simp [absent, h]
  · rfl

theorem ofMembers_eq_absent_iff (ms : List (String × Int)) (e : Option Int) :
    ofMembers ms e = absent ↔ ms = [] := by
  constructor
  · intro h
    have := members_ofMembers ms e
    rw [h] at this
    simpa [absent] using this.symm
  · intro h
    simp [ofMembers, h]

theorem ofMembers_of_ne_nil {ms : List (String × Int)} (e : Option Int) (h : ms ≠ []) :
    ofMembers ms e = ⟨ms, e⟩ := by
  simp [ofMembers, h]

theorem members_ZREMRANGEBYSCORE (k : SortedSetKey) (max : Int) :
    (ZREMRANGEBYSCORE k max).members = k.members.filter (fun e => ¬ e.2 ≤ max) := by
  simp [ZREMRANGEBYSCORE, members_ofMembers]

theorem members_ZREM (k : SortedSetKey) (member : String) :
    (ZREM k member).members = k.members.filter (fun e => e.1 ≠ member) := by
  simp [ZREM, members_ofMembers]

theorem ZCARD_ZREMRANGEBYSCORE_le (k : SortedSetKey) (max : Int) :
    ZCARD (ZREMRANGEBYSCORE k max) ≤ ZCARD k := by
  unfold ZCARD
  rw [members_ZREMRANGEBYSCORE]
  exact_mod_cast List.length_filter_le _ _

theorem ZCARD_ZREM_le (k : SortedSetKey) (member : String) :
    ZCARD (ZREM k member) ≤ ZCARD k := by
  unfold ZCARD
  rw [members_ZREM]
  exact_mod_cast List.length_filter_le _ _

theorem ZCARD_expireIfNeeded_le (k : SortedSetKey) (now : Int) :
    ZCARD (expireIfNeeded k now) ≤ ZCARD k := by
  unfold expireIfNeeded
  split
  · split
    · simp [ZCARD, absent]
    · exact le_refl _
  · exact le_refl _

theorem ZCARD_expireEffect_le (k : SortedSetKey) (now seconds : Int) :
    ZCARD (expireEffect k now seconds) ≤ ZCARD k := by
  unfold expireEffect
  split
  · exact le_refl _
  · split
    · simp [ZCARD, absent]
    · simp [ZCARD]

theorem ZCARD_ZADD_of_member (k : SortedSetKey) (score : Int) (member : String) (s : Int)
    (h : ZSCORE k member = some s) : ZCARD (ZADD k score member) = ZCARD k := by
  unfold ZSCORE at h
  simp [ZADD, h, ZCARD]

theorem ZCARD_ZADD_of_new (k : SortedSetKey) (score : Int) (member : String)
    (h : ZSCORE k member = none) : ZCARD (ZADD k score member) = ZCARD k + 1 := by
  unfold ZSCORE at h
  simp [ZADD, h, ZCARD]

theorem EXPIRE_of_accepted (k : SortedSetKey) (now seconds : Int)
    (h : expireAccepts now seconds = true) :
    EXPIRE k now seconds = .ok (expireEffect k now seconds) := by
  simp [EXPIRE, h]

theorem EXPIRE_of_refused (k : SortedSetKey) (now seconds : Int)
    (h : ¬ expireAccepts now seconds = true) :
    EXPIRE k now seconds = .error expireError := by
  simp [EXPIRE, h]

/-- The script on an identifier that is a member after the sweep. -/
theorem acquireScript_of_member (now : Int) (k : SortedSetKey) (maxConcurrency ttl : Int)
    (requestID : String) (s : Int)
    (hmem : ZSCORE (ZREMRANGEBYSCORE k (now - ttl)) requestID = some s) :
    acquireScript now k maxConcurrency ttl requestID =
      if expireAccepts now ttl = true then
        (expireEffect (ZADD (ZREMRANGEBYSCORE k (now - ttl)) now requestID) now ttl, .ok 1)
      else (ZADD (ZREMRANGEBYSCORE k (now - ttl)) now requestID, .error expireError) := by
  unfold acquireScript
  simp only [hmem]
  by_cases h : expireAccepts now ttl = true
  · simp only [EXPIRE_of_accepted _ _ _ h, h, if_true]
  · simp [EXPIRE_of_refused _ _ _ h, h]

/-- The script on an identifier that is not a member after the sweep. -/
theorem acquireScript_of_new (now : Int) (k : SortedSetKey) (maxConcurrency ttl : Int)
    (requestID : String)
    (hnew : ZSCORE (ZREMRANGEBYSCORE k (now - ttl)) requestID = none) :
    acquireScript now k maxConcurrency ttl requestID =
      if ZCARD (ZREMRANGEBYSCORE k (now - ttl)) < maxConcurrency then
        if expireAccepts now ttl = true then
          (expireEffect (ZADD (ZREMRANGEBYSCORE k (now - ttl)) now requestID) now ttl, .ok 1)
        else (ZADD (ZREMRANGEBYSCORE k (now - ttl)) now requestID, .error expireError)
      else (ZREMRANGEBYSCORE k (now - ttl), .ok 0) := by
  unfold acquireScript
  simp only [hnew]
  by_cases hlt : ZCARD (ZREMRANGEBYSCORE k (now - ttl)) < maxConcurrency
  · by_cases h : expireAccepts now ttl = true
    · simp only [hlt, if_true, EXPIRE_of_accepted _ _ _ h, h]
    · simp [hlt, EXPIRE_of_refused _ _ _ h, h]
  · simp only [hlt, if_false]

/-- The cardinality after `acquireScript` never exceeds both the earlier
cardinality and the limit, whether or not the `EXPIRE` is accepted. -/
theorem ZCARD_acquireScript_le (now : Int) (k : SortedSetKey) (M ttl : Int)
    (requestID : String) (hk : ZCARD k ≤ M) :
    ZCARD (acquireScript now k M ttl requestID).1 ≤ M := by
  have hs := ZCARD_ZREMRANGEBYSCORE_le k (now - ttl)
  have h2 := ZCARD_expireEffect_le (ZADD (ZREMRANGEBYSCORE k (now - ttl)) now requestID) now ttl
  cases hz : ZSCORE (ZREMRANGEBYSCORE k (now - ttl)) requestID with
  | some s =>
    have h1 := ZCARD_ZADD_of_member _ now requestID s hz
    rw [acquireScript_of_member _ _ _ _ _ s hz]
    split
    · simp only
      omega
    · simp only
      omega
  | none =>
    have h1 := ZCARD_ZADD_of_new _ now requestID hz
    rw [acquireScript_of_new _ _ _ _ _ hz]
    split
    · split
      · simp only
        omega
      · simp only
        omega
    · simp only
      omega

theorem ZCARD_ledgerStep_le (c : concurrencyCache) (M : Int) (k : SortedSetKey)
    (call : LedgerCall) (hk : ZCARD k ≤ M) (hcall : allAcquireWith M [call] = true) :
    ZCARD (ledgerStep c k call).1 ≤ M := by
  have he : ∀ now, ZCARD (expireIfNeeded k now) ≤ M := fun now =>
    le_trans (ZCARD_expireIfNeeded_le k now) hk
  cases call with
  | acquire now maxConcurrency requestID =>
    have hm : maxConcurrency = M := by simpa [allAcquireWith] using hcall
    subst hm
    exact ZCARD_acquireScript_le now _ _ _ requestID (he now)
  | release now requestID =>
    exact le_trans (ZCARD_ZREM_le _ requestID) (he now)
  | getConcurrency now =>
    exact le_trans (ZCARD_ZREMRANGEBYSCORE_le _ _) (he now)

theorem ZCARD_ledgerRun_le (c : concurrencyCache) (M : Int) (calls : List LedgerCall) :
    ∀ k : SortedSetKey, ZCARD k ≤ M → allAcquireWith M calls = true →
      ZCARD (ledgerRun c k calls) ≤ M := by
  induction calls with
  | nil => intro k hk _; exact hk
  | cons call rest ih =>
    intro k hk hall
    have h1 : allAcquireWith M [call] = true := by
      simp only [allAcquireWith, List.all_cons, Bool.and_eq_true] at hall ⊢
      exact ⟨hall.1, by simp⟩
    have h2 : allAcquireWith M rest = true := by
      simp only [allAcquireWith, List.all_cons, Bool.and_eq_true] at hall ⊢
      exact hall.2
    exact ih _ (ZCARD_ledgerStep_le c M k call hk h1) h2

theorem allAcquireWith_take (M : Int) (calls : List LedgerCall) (n : Nat)
    (h : allAcquireWith M calls = true) : allAcquireWith M (calls.take n) = true := by
  unfold allAcquireWith at h ⊢
  rw [List.all_eq_true] at h ⊢
  intro call hcall
  exact h call (List.mem_of_mem_take hcall)

theorem liveCount_le_ZCARD (k : SortedSetKey) (now ttl : Int) :
    liveCount k now ttl ≤ ZCARD k := by
  unfold liveCount ZCARD
  exact_mod_cast List.length_filter_le _ _

/-! ## Lemmas on score lookup -/

theorem lookup_append_new (l : List (String × Int)) (r : String) (s : Int)
    (h : l.lookup r = none) : (l ++ [(r, s)]).lookup r = some s := by
  induction l with
  | nil => simp [List.lookup]
  | cons e rest ih =>
    obtain ⟨a, b⟩ := e
    by_cases hra : r = a
    · subst hra
      simp [List.lookup] at h
    · have hb : (r == a) = false := by simpa using hra
      simp only [List.cons_append, List.lookup, hb] at h ⊢
      exact ih h

theorem lookup_append_other (l : List (String × Int)) (m r : String) (s : Int)
    (h : m ≠ r) : (l ++ [(r, s)]).lookup m = l.lookup m := by
  induction l with
  | nil =>
    have hb : (m == r) = false := by simpa using h
    simp [List.lookup, hb]
  | cons e rest ih =>
    obtain ⟨a, b⟩ := e
    by_cases hma : m = a
    · subst hma
      simp [List.lookup]
    · have hb : (m == a) = false := by simpa using hma
      simp only [List.cons_append, List.lookup, hb]
      exact ih

theorem lookup_update_self (l : List (String × Int)) (r : String) (s score : Int)
    (h : l.lookup r = some s) :
    (l.map (fun e => if e.1 = r then (r, score) else e)).lookup r = some score := by
  induction l with
  | nil => simp [List.lookup] at h
  | cons e rest ih =>
    obtain ⟨a, b⟩ := e
    rw [List.map_cons]
    by_cases hra : a = r
    · rw [if_pos hra]
      simp [List.lookup]
    · have hb : (r == a) = false := by simpa using (Ne.symm hra)
      simp only [List.lookup, hb] at h
      rw [if_neg hra]
      simp only [List.lookup, hb]
      exact ih h

theorem lookup_update_other (l : List (String × Int)) (m r : String) (score : Int)
    (h : m ≠ r) :
    (l.map (fun e => if e.1 = r then (r, score) else e)).lookup m = l.lookup m := by
  induction l with
  | nil => rfl
  | cons e rest ih =>
    obtain ⟨a, b⟩ := e
    rw [List.map_cons]
    by_cases hra : a = r
    · rw [if_pos hra]
      subst hra
      have hb : (m == a) = false := by simpa using h
      simp only [List.lookup, hb]
      exact ih
    · rw [if_neg hra]
      by_cases hma : m = a
      · subst hma
        simp [List.lookup]
      · have hb : (m == a) = false := by simpa using hma
        simp only [List.lookup, hb]
        exact ih

theorem map_fst_update (l : List (String × Int)) (r : String) (score : Int) :
    (l.map (fun e => if e.1 = r then (r, score) else e)).map Prod.fst = l.map Prod.fst := by
  induction l with
  | nil => rfl
  | cons e rest ih =>
    obtain ⟨a, b⟩ := e
    by_cases hra : a = r
    · subst hra
      simpa using ih
    · simpa [hra] using ih

theorem lookup_filter_key_other (l : List (String × Int)) (m r : String) (h : m ≠ r) :
    (l.filter (fun e => e.1 ≠ r)).lookup m = l.lookup m := by
  induction l with
  | nil => rfl
  | cons e rest ih =>
    obtain ⟨a, b⟩ := e
    by_cases hra : a = r
    · subst hra
      have hb : (m == a) = false := by simpa using h
      simp only [List.filter_cons, ne_eq, not_true_eq_false, decide_False, List.lookup, hb]
      simpa using ih
    · by_cases hma : m = a
      · subst hma
        simp [List.filter_cons, hra, List.lookup]
      · have hb : (m == a) = false := by simpa using hma
        simp only [List.filter_cons, ne_eq, hra, not_false_eq_true, decide_True, if_true,
          List.lookup, hb]
        simpa using ih

theorem lookup_filter_key_self (l : List (String × Int)) (r : String) :
    (l.filter (fun e => e.1 ≠ r)).lookup r = none := by
  induction l with
  | nil => rfl
  | cons e rest ih =>
    obtain ⟨a, b⟩ := e
    by_cases hra : a = r
    · subst hra
      simpa [List.filter_cons] using ih
    · have hb : (r == a) = false := by simpa using (Ne.symm hra)
      simp only [List.filter_cons, ne_eq, hra, not_false_eq_true, decide_True, if_true,
        List.lookup, hb]
      simpa using ih

theorem lookup_eq_none_of_not_mem (l : List (String × Int)) (m : String)
    (h : m ∉ l.map Prod.fst) : l.lookup m = none := by
  induction l with
  | nil => rfl
  | cons e rest ih =>
    obtain ⟨a, b⟩ := e
    simp only [List.map_cons, List.mem_cons, not_or] at h
    have hb : (m == a) = false := by simpa using h.1
    simp only [List.lookup, hb]
    exact ih h.2

theorem mem_of_lookup_eq_some (l : List (String × Int)) (m : String) (s : Int)
    (h : l.lookup m = some s) : (m, s) ∈ l := by
  induction l with
  | nil => simp [List.lookup] at h
  | cons e rest ih =>
    obtain ⟨a, b⟩ := e
    by_cases hma : m = a
    · subst hma
      simp [List.lookup] at h
      simp [h]
    · have hb : (m == a) = false := by simpa using hma
      simp only [List.lookup, hb] at h
      exact List.mem_cons_of_mem _ (ih h)

theorem lookup_eq_some_of_mem (l : List (String × Int)) (m : String) (s : Int)
    (hnd : (l.map Prod.fst).Nodup) (h : (m, s) ∈ l) : l.lookup m = some s := by
  induction l with
  | nil => simp at h
  | cons e rest ih =>
    obtain ⟨a, b⟩ := e
    simp only [List.map_cons, List.nodup_cons] at hnd
    rcases List.mem_cons.mp h with heq | hrest
    · obtain ⟨rfl, rfl⟩ := Prod.mk.inj heq
      simp [List.lookup]
    · have hne : m ≠ a := by
        rintro rfl
        exact hnd.1 (List.mem_map.mpr ⟨(m, s), hrest, rfl⟩)
      have hb : (m == a) = false := by simpa using hne
      simp only [List.lookup, hb]
      exact ih hnd.2 hrest

theorem expireEffect_of_pos (k : SortedSetKey) (now seconds : Int) (hk : k.members ≠ [])
    (hs : 0 < seconds) : expireEffect k now seconds = ⟨k.members, some (now + seconds)⟩ := by
  have : ¬ seconds ≤ 0 := by omega
  simp [expireEffect, hk, this]

theorem expireEffect_of_nonpos (k : SortedSetKey) (now seconds : Int) (hk : k.members ≠ [])
    (hs : seconds ≤ 0) : expireEffect k now seconds = absent := by
  simp [expireEffect, hk, hs]

theorem members_ZADD_new (k : SortedSetKey) (score : Int) (member : String)
    (h : ZSCORE k member = none) :
    ZADD k score member = ⟨k.members ++ [(member, score)], k.expireAt⟩ := by
  unfold ZSCORE at h
  simp [ZADD, h]

theorem members_ZADD_member (k : SortedSetKey) (score : Int) (member : String) (s : Int)
    (h : ZSCORE k member = some s) :
    ZADD k score member =
      ⟨k.members.map (fun e => if e.1 = member then (member, score) else e), k.expireAt⟩ := by
  unfold ZSCORE at h
  simp [ZADD, h]

theorem members_ne_nil_of_ZSCORE (k : SortedSetKey) (member : String) (s : Int)
    (h : ZSCORE k member = some s) : k.members ≠ [] := by
  intro hnil
  simp [ZSCORE, hnil, List.lookup] at h

/-! ## Lemmas on the sweep and on acquire -/

theorem filter_idem (p : String × Int → Bool) (l : List (String × Int)) :
    (l.filter p).filter p = l.filter p := by
  rw [List.filter_eq_self]
  intro a ha
  exact (List.mem_filter.mp ha).2

theorem ZREMRANGEBYSCORE_idem (k : SortedSetKey) (max : Int) :
    ZREMRANGEBYSCORE (ZREMRANGEBYSCORE k max) max = ZREMRANGEBYSCORE k max := by
  by_cases h : k.members.filter (fun e => ¬ e.2 ≤ max) = []
  · have h1 : ZREMRANGEBYSCORE k max = absent := by
      unfold ZREMRANGEBYSCORE
      rw [ofMembers_eq_absent_iff]
      exact h
    rw [h1]
    simp [ZREMRANGEBYSCORE, absent, ofMembers]
  · have h1 : ZREMRANGEBYSCORE k max =
        ⟨k.members.filter (fun e => ¬ e.2 ≤ max), k.expireAt⟩ := by
      unfold ZREMRANGEBYSCORE
      exact ofMembers_of_ne_nil _ h
    rw [h1]
    unfold ZREMRANGEBYSCORE
    simp only [filter_idem]
    exact ofMembers_of_ne_nil _ h

theorem ZREMRANGEBYSCORE_eq_absent (k : SortedSetKey) (max : Int)
    (h : ∀ e ∈ k.members, e.2 ≤ max) : ZREMRANGEBYSCORE k max = absent := by
  unfold ZREMRANGEBYSCORE
  rw [ofMembers_eq_absent_iff, List.filter_eq_nil_iff]
  intro e he
  simpa using h e he

theorem ZREMRANGEBYSCORE_eq_self (k : SortedSetKey) (max : Int) (hwf : k.WF)
    (h : ∀ e ∈ k.members, ¬ e.2 ≤ max) : ZREMRANGEBYSCORE k max = k := by
  have hf : k.members.filter (fun e => ¬ e.2 ≤ max) = k.members := by
    rw [List.filter_eq_self]
    intro e he
    simpa using h e he
  unfold ZREMRANGEBYSCORE
  rw [hf]
  by_cases hnil : k.members = []
  · have he := hwf.2 hnil
    obtain ⟨ms, e⟩ := k
    simp only at hnil he
    subst hnil he
    rfl
  · exact ofMembers_of_ne_nil _ hnil

/-- With distinct identifiers, a member whose entry fails the filter has no
score in the filtered list. -/
theorem lookup_filter_of_removed (l : List (String × Int)) (p : String × Int → Bool)
    (m : String) (s : Int) (hnd : (l.map Prod.fst).Nodup) (hm : l.lookup m = some s)
    (hp : p (m, s) = false) : (l.filter p).lookup m = none := by
  apply lookup_eq_none_of_not_mem
  intro hmem
  obtain ⟨e, he, hfst⟩ := List.mem_map.mp hmem
  obtain ⟨a, b⟩ := e
  simp only at hfst
  subst hfst
  obtain ⟨hel, hpe⟩ := List.mem_filter.mp he
  have hb := lookup_eq_some_of_mem l a b hnd hel
  rw [hm] at hb
  obtain rfl := Option.some.inj hb
  rw [hp] at hpe
  exact Bool.false_ne_true hpe

theorem ZSCORE_ZADD_other (k : SortedSetKey) (score : Int) (m r : String) (h : m ≠ r) :
    ZSCORE (ZADD k score r) m = ZSCORE k m := by
  unfold ZADD ZSCORE
  split
  · exact lookup_update_other _ _ _ _ h
  · exact lookup_append_other _ _ _ _ h

theorem ZSCORE_expireEffect_of_none (k : SortedSetKey) (now seconds : Int) (m : String)
    (h : ZSCORE k m = none) : ZSCORE (expireEffect k now seconds) m = none := by
  unfold expireEffect
  split
  · exact h
  · split
    · rfl
    · exact h

/-- An identifier other than the acquired one that is no member after the
sweep is no member after the script. -/
theorem ZSCORE_acquireScript_other (now : Int) (k : SortedSetKey) (maxConcurrency ttl : Int)
    (requestID m : String) (hne : m ≠ requestID)
    (h : ZSCORE (ZREMRANGEBYSCORE k (now - ttl)) m = none) :
    ZSCORE (acquireScript now k maxConcurrency ttl requestID).1 m = none := by
  have hzadd : ZSCORE (ZADD (ZREMRANGEBYSCORE k (now - ttl)) now requestID) m = none := by
    rw [ZSCORE_ZADD_other _ _ _ _ hne]; exact h
  have hadd : ZSCORE (expireEffect (ZADD (ZREMRANGEBYSCORE k (now - ttl)) now requestID)
      now ttl) m = none :=
    ZSCORE_expireEffect_of_none _ _ _ _ hzadd
  cases hz : ZSCORE (ZREMRANGEBYSCORE k (now - ttl)) requestID with
  | some s =>
    rw [acquireScript_of_member _ _ _ _ _ s hz]
    split
    · exact hadd
    · exact hzadd
  | none =>
    rw [acquireScript_of_new _ _ _ _ _ hz]
    split
    · split
      · exact hadd
      · exact hzadd
    · exact h

/-- The script only depends on the key through its sweep. -/
theorem acquireScript_sweep (now : Int) (k : SortedSetKey) (maxConcurrency ttl : Int)
    (requestID : String) :
    acquireScript now (ZREMRANGEBYSCORE k (now - ttl)) maxConcurrency ttl requestID =
      acquireScript now k maxConcurrency ttl requestID := by
  unfold acquireScript
  simp only [ZREMRANGEBYSCORE_idem]

/-- A script run on a key that does not exist, with a limit of at least one
and a timeout the store accepts, is granted. -/
theorem acquireScript_absent (now maxConcurrency ttl : Int) (requestID : String)
    (h : 1 ≤ maxConcurrency) (hacc : expireAccepts now ttl = true) :
    acquireScript now absent maxConcurrency ttl requestID =
      (expireEffect ⟨[(requestID, now)], none⟩ now ttl, .ok 1) := by
  have h0 : ZREMRANGEBYSCORE absent (now - ttl) = absent := by
    apply ZREMRANGEBYSCORE_eq_absent
    intro e he
    simp [absent] at he
  have hlt : ZCARD absent < maxConcurrency := by
    simp only [ZCARD, absent, List.length_nil]
    omega
  have hnew : ZSCORE (ZREMRANGEBYSCORE absent (now - ttl)) requestID = none := by
    rw [h0]; rfl
  rw [acquireScript_of_new _ _ _ _ _ hnew, h0]
  simp only [hlt, if_true, hacc]
  rfl

theorem mem_ZADD_other (k : SortedSetKey) (score : Int) (m r : String) (s : Int)
    (h : m ≠ r) : (m, s) ∈ (ZADD k score r).members ↔ (m, s) ∈ k.members := by
  unfold ZADD
  split
  · simp only [List.mem_map]
    constructor
    · rintro ⟨⟨a, b⟩, hab, heq⟩
      by_cases har : a = r
      · simp only [har, if_true] at heq
        exact absurd (Prod.mk.inj heq).1.symm h
      · simp only [har, if_false] at heq
        rw [← heq]
        exact hab
    · intro hms
      exact ⟨(m, s), hms, by simp [h]⟩
  · simp only [List.mem_append, List.mem_singleton, Prod.mk.injEq]
    constructor
    · rintro (hms | ⟨hmr, _⟩)
      · exact hms
      · exact absurd hmr h
    · intro hms
      exact Or.inl hms

theorem mem_of_mem_expireEffect (k : SortedSetKey) (now seconds : Int) (e : String × Int)
    (h : e ∈ (expireEffect k now seconds).members) : e ∈ k.members := by
  unfold expireEffect at h
  split at h
  · exact h
  · split at h
    · simp [absent] at h
    · exact h

theorem members_expireEffect_of_pos (k : SortedSetKey) (now seconds : Int) (hs : 0 < seconds) :
    (expireEffect k now seconds).members = k.members := by
  unfold expireEffect
  have : ¬ seconds ≤ 0 := by omega
  split
  · rfl
  · simp [this]

/-- An entry of another identifier found after the script was there after the
sweep. -/
theorem mem_sweep_of_mem_acquireScript (now : Int) (k : SortedSetKey)
    (maxConcurrency ttl : Int) (requestID m : String) (s : Int) (hne : m ≠ requestID)
    (h : (m, s) ∈ (acquireScript now k maxConcurrency ttl requestID).1.members) :
    (m, s) ∈ (ZREMRANGEBYSCORE k (now - ttl)).members := by
  have hzadd : (m, s) ∈ (ZADD (ZREMRANGEBYSCORE k (now - ttl)) now requestID).members →
      (m, s) ∈ (ZREMRANGEBYSCORE k (now - ttl)).members :=
    (mem_ZADD_other _ _ _ _ _ hne).mp
  have hadd : (m, s) ∈
      (expireEffect (ZADD (ZREMRANGEBYSCORE k (now - ttl)) now requestID) now ttl).members →
      (m, s) ∈ (ZREMRANGEBYSCORE k (now - ttl)).members := fun h' =>
    hzadd (mem_of_mem_expireEffect _ _ _ _ h')
  cases hz : ZSCORE (ZREMRANGEBYSCORE k (now - ttl)) requestID with
  | some s' =>
    rw [acquireScript_of_member _ _ _ _ _ s' hz] at h
    split at h
    · exact hadd h
    · exact hzadd h
  | none =>
    rw [acquireScript_of_new _ _ _ _ _ hz] at h
    split at h
    · split at h
      · exact hadd h
      · exact hzadd h
    · exact h

/-- With a positive TTL, an entry of another identifier left by the sweep is
still there after the script. -/
theorem mem_acquireScript_of_mem_sweep (now : Int) (k : SortedSetKey)
    (maxConcurrency ttl : Int) (requestID m : String) (s : Int) (hne : m ≠ requestID)
    (httl : 0 < ttl) (h : (m, s) ∈ (ZREMRANGEBYSCORE k (now - ttl)).members) :
    (m, s) ∈ (acquireScript now k maxConcurrency ttl requestID).1.members := by
  have hzadd : (m, s) ∈ (ZADD (ZREMRANGEBYSCORE k (now - ttl)) now requestID).members :=
    (mem_ZADD_other _ _ _ _ _ hne).mpr h
  have hadd : (m, s) ∈
      (expireEffect (ZADD (ZREMRANGEBYSCORE k (now - ttl)) now requestID) now ttl).members := by
    rw [members_expireEffect_of_pos _ _ _ httl]
    exact hzadd
  cases hz : ZSCORE (ZREMRANGEBYSCORE k (now - ttl)) requestID with
  | some s' =>
    rw [acquireScript_of_member _ _ _ _ _ s' hz]
    split
    · exact hadd
    · exact hzadd
  | none =>
    rw [acquireScript_of_new _ _ _ _ _ hz]
    split
    · split
      · exact hadd
      · exact hzadd
    · exact h

/-! ## Lemmas on release and on denied acquires -/

theorem filter_key_eq_self_of_lookup_none (l : List (String × Int)) (r : String)
    (h : l.lookup r = none) : l.filter (fun e => e.1 ≠ r) = l := by
  induction l with
  | nil => rfl
  | cons e rest ih =>
    obtain ⟨a, b⟩ := e
    by_cases hra : r = a
    · subst hra
      simp [List.lookup] at h
    · have hb : (r == a) = false := by simpa using hra
      simp only [List.lookup, hb] at h
      have har : a ≠ r := Ne.symm hra
      simp only [List.filter_cons, ne_eq, har, not_false_eq_true, decide_True, if_true]
      rw [show rest.filter (fun e => decide (¬ e.1 = r)) = rest from by simpa using ih h]

theorem ZREM_absent (r : String) : ZREM absent r = absent := by
  simp [ZREM, absent, ofMembers]

theorem ZREM_ZREM (k : SortedSetKey) (r r' : String) :
    ZREM (ZREM k r) r' =
      ofMembers ((k.members.filter (fun e => e.1 ≠ r)).filter (fun e => e.1 ≠ r')) k.expireAt := by
  by_cases h : k.members.filter (fun e => e.1 ≠ r) = []
  · have h1 : ZREM k r = absent := by
      unfold ZREM
      rw [ofMembers_eq_absent_iff]
      exact h
    rw [h1, ZREM_absent, h]
    simp [ofMembers]
  · have h1 : ZREM k r = ⟨k.members.filter (fun e => e.1 ≠ r), k.expireAt⟩ := by
      unfold ZREM
      exact ofMembers_of_ne_nil _ h
    rw [h1]
    rfl

theorem ZREM_comm (k : SortedSetKey) (r r' : String) :
    ZREM (ZREM k r) r' = ZREM (ZREM k r') r := by
  rw [ZREM_ZREM, ZREM_ZREM]
  congr 1
  simp only [List.filter_filter]
  congr 1
  funext e
  exact Bool.and_comm _ _

theorem ZREM_idem (k : SortedSetKey) (r : String) : ZREM (ZREM k r) r = ZREM k r := by
  rw [ZREM_ZREM, filter_idem]
  rfl

theorem ZREM_of_not_member (k : SortedSetKey) (r : String) (hwf : k.WF)
    (h : ZSCORE k r = none) : ZREM k r = k := by
  unfold ZREM
  rw [filter_key_eq_self_of_lookup_none _ _ h]
  by_cases hnil : k.members = []
  · have he := hwf.2 hnil
    obtain ⟨ms, e⟩ := k
    simp only at hnil he
    subst hnil he
    rfl
  · exact ofMembers_of_ne_nil _ hnil

/-- A script run that the method reports as a denial (`false` without error)
found a new identifier and a full ledger, and did nothing but the sweep. -/
theorem acquireScript_denied (now : Int) (k : SortedSetKey) (maxConcurrency ttl : Int)
    (requestID : String)
    (h : grantedOf (acquireScript now k maxConcurrency ttl requestID).2 = (false, none)) :
    (acquireScript now k maxConcurrency ttl requestID).1 = ZREMRANGEBYSCORE k (now - ttl) ∧
    ZSCORE (ZREMRANGEBYSCORE k (now - ttl)) requestID = none ∧
    ¬ ZCARD (ZREMRANGEBYSCORE k (now - ttl)) < maxConcurrency := by
  cases hz : ZSCORE (ZREMRANGEBYSCORE k (now - ttl)) requestID with
  | some s =>
    rw [acquireScript_of_member _ _ _ _ _ s hz] at h
    split at h
    · simp [grantedOf] at h
    · simp [grantedOf] at h
  | none =>
    rw [acquireScript_of_new _ _ _ _ _ hz] at h ⊢
    split at h
    · split at h
      · simp [grantedOf] at h
      · simp [grantedOf] at h
    · next hfull =>
      simp only [hfull, if_false]
      exact ⟨trivial, trivial, not_false⟩

/-! ## Well-formedness is kept by every call -/

theorem not_mem_keys_of_lookup_none (l : List (String × Int)) (r : String)
    (h : l.lookup r = none) : r ∉ l.map Prod.fst := by
  induction l with
  | nil => simp
  | cons e rest ih =>
    obtain ⟨a, b⟩ := e
    by_cases hra : r = a
    · subst hra
      simp [List.lookup] at h
    · have hb : (r == a) = false := by simpa using hra
      simp only [List.lookup, hb] at h
      simp only [List.map_cons, List.mem_cons, not_or]
      exact ⟨hra, ih h⟩

theorem WF_absent : absent.WF := by decide

theorem WF_ofMembers (ms : List (String × Int)) (e : Option Int)
    (h : (ms.map Prod.fst).Nodup) : (ofMembers ms e).WF := by
  unfold ofMembers
  split
  · exact WF_absent
  · next hne => exact ⟨h, fun hnil => absurd hnil hne⟩

theorem nodup_keys_filter (l : List (String × Int)) (p : String × Int → Bool)
    (h : (l.map Prod.fst).Nodup) : ((l.filter p).map Prod.fst).Nodup :=
  h.sublist ((List.filter_sublist l).map Prod.fst)

theorem WF_ZREMRANGEBYSCORE (k : SortedSetKey) (max : Int) (h : k.WF) :
    (ZREMRANGEBYSCORE k max).WF :=
  WF_ofMembers _ _ (nodup_keys_filter _ _ h.1)

theorem WF_ZREM (k : SortedSetKey) (r : String) (h : k.WF) : (ZREM k r).WF :=
  WF_ofMembers _ _ (nodup_keys_filter _ _ h.1)

theorem WF_ZADD (k : SortedSetKey) (score : Int) (r : String) (h : k.WF) :
    (ZADD k score r).WF ∧ (ZADD k score r).members ≠ [] := by
  unfold ZADD
  split
  · next s hs =>
    refine ⟨⟨?_, fun hnil => ?_⟩, ?_⟩
    · simp only
      rw [map_fst_update]
      exact h.1
    · simp only [List.map_eq_nil_iff] at hnil
      rw [hnil] at hs
      simp [List.lookup] at hs
    · simp only [ne_eq, List.map_eq_nil_iff]
      intro hnil
      rw [hnil] at hs
      simp [List.lookup] at hs
  · next hnone =>
    refine ⟨⟨?_, fun hnil => ?_⟩, by simp⟩
    · simp only [List.map_append, List.map_cons, List.map_nil]
      rw [List.nodup_append]
      refine ⟨h.1, List.nodup_singleton _, ?_⟩
      intro a ha hr
      simp only [List.mem_singleton] at hr
      subst hr
      exact not_mem_keys_of_lookup_none _ _ hnone ha
    · simp at hnil

theorem WF_expireEffect (k : SortedSetKey) (now seconds : Int) (h : k.WF) :
    (expireEffect k now seconds).WF := by
  unfold expireEffect
  split
  · exact h
  · next hne =>
    split
    · exact WF_absent
    · exact ⟨h.1, fun hnil => absurd hnil hne⟩

theorem WF_expireIfNeeded (k : SortedSetKey) (now : Int) (h : k.WF) :
    (expireIfNeeded k now).WF := by
  unfold expireIfNeeded
  split
  · split
    · exact WF_absent
    · exact h
  · exact h

theorem WF_acquireScript (now : Int) (k : SortedSetKey) (maxConcurrency ttl : Int)
    (requestID : String) (h : k.WF) :
    (acquireScript now k maxConcurrency ttl requestID).1.WF := by
  have hs := WF_ZREMRANGEBYSCORE k (now - ttl) h
  have hzadd := (WF_ZADD _ now requestID hs).1
  have hadd := WF_expireEffect _ now ttl hzadd
  cases hz : ZSCORE (ZREMRANGEBYSCORE k (now - ttl)) requestID with
  | some s =>
    rw [acquireScript_of_member _ _ _ _ _ s hz]
    split
    · exact hadd
    · exact hzadd
  | none =>
    rw [acquireScript_of_new _ _ _ _ _ hz]
    split
    · split
      · exact hadd
      · exact hzadd
    · exact hs

/-- Every key reached from a well-formed one is well-formed. -/
theorem WF_ledgerRun (c : concurrencyCache) (calls : List LedgerCall) :
    ∀ k : SortedSetKey, k.WF → (ledgerRun c k calls).WF := by
  induction calls with
  | nil => intro k hk; exact hk
  | cons call rest ih =>
    intro k hk
    apply ih
    have he := fun now => WF_expireIfNeeded k now hk
    cases call with
    | acquire now maxConcurrency requestID => exact WF_acquireScript _ _ _ _ _ (he now)
    | release now requestID => exact WF_ZREM _ _ (he now)
    | getConcurrency now => exact WF_ZREMRANGEBYSCORE _ _ (he now)

/-- On a well-formed key, the score of an identifier is the score of its
entry. -/
theorem ZSCORE_eq_some_iff (k : SortedSetKey) (h : k.WF) (m : String) (s : Int) :
    ZSCORE k m = some s ↔ (m, s) ∈ k.members :=
  ⟨mem_of_lookup_eq_some _ _ _, lookup_eq_some_of_mem _ _ _ h.1⟩

theorem acquire_granted_iff_of_new (c : concurrencyCache) (now : Int) (k : SortedSetKey)
    (maxConcurrency : Int) (requestID : String)
    (hacc : expireAccepts now c.slotTTLSeconds = true)
    (hnew : ZSCORE (ZREMRANGEBYSCORE k (now - c.slotTTLSeconds)) requestID = none) :
    (AcquireAccountSlot c now k maxConcurrency requestID).2.1 = true ↔
      ZCARD (ZREMRANGEBYSCORE k (now - c.slotTTLSeconds)) < maxConcurrency := by
  unfold AcquireAccountSlot
  simp only [acquireScript_of_new now k maxConcurrency c.slotTTLSeconds requestID hnew, hacc,
    if_true]
  by_cases hlt : ZCARD (ZREMRANGEBYSCORE k (now - c.slotTTLSeconds)) < maxConcurrency
  · simp [hlt, grantedOf]
  · simp [hlt, grantedOf]

/-- An entry that the sweep removes is no entry after the script, whichever
identifier is acquired: the acquired identifier comes back with the score
`now`, which is not a swept score when the TTL is not negative, and an accepted
`EXPIRE` with a negative TTL removes the key. -/
theorem not_mem_acquireScript_of_swept (now : Int) (k : SortedSetKey)
    (maxConcurrency ttl : Int) (requestID m : String) (s : Int)
    (hgone : ZSCORE (ZREMRANGEBYSCORE k (now - ttl)) m = none) (hs : s < now - ttl)
    (hcond : 0 ≤ ttl ∨ expireAccepts now ttl = true) :
    (m, s) ∉ (acquireScript now k maxConcurrency ttl requestID).1.members := by
  have hkeys : ∀ (k' : SortedSetKey), ZSCORE k' m = none → (m, s) ∉ k'.members := by
    intro k' hnone hin
    exact not_mem_keys_of_lookup_none _ _ hnone (List.mem_map.mpr ⟨(m, s), hin, rfl⟩)
  by_cases hne : m = requestID
  · subst hne
    have hadd := members_ZADD_new _ now m hgone
    have hzadd : (m, s) ∈ (ZADD (ZREMRANGEBYSCORE k (now - ttl)) now m).members → s = now := by
      intro hin
      rw [hadd, List.mem_append] at hin
      rcases hin with hin | hin
      · exact absurd hin (hkeys _ hgone)
      · simp only [List.mem_singleton, Prod.mk.injEq] at hin
        exact hin.2
    have hnonempty : (ZADD (ZREMRANGEBYSCORE k (now - ttl)) now m).members ≠ [] := by
      rw [hadd]; simp
    rw [acquireScript_of_new _ _ _ _ _ hgone]
    split
    · split
      · intro hin
        by_cases httl : 0 ≤ ttl
        · have := hzadd (mem_of_mem_expireEffect _ _ _ _ hin)
          omega
        · rw [expireEffect_of_nonpos _ now ttl hnonempty (by omega)] at hin
          simp [absent] at hin
      · next hrefused =>
        intro hin
        have hsn := hzadd hin
        rcases hcond with h | h
        · omega
        · exact hrefused h
    · exact hkeys _ hgone
  · exact hkeys _ (ZSCORE_acquireScript_other now k maxConcurrency ttl requestID m hne hgone)

/-! ## Lemmas on the wait counter -/

theorem count_expireIfNeeded (k : WaitKey) (now : Int) :
    WaitKey.expireIfNeeded k now = k ∨ WaitKey.expireIfNeeded k now = none := by
  unfold WaitKey.expireIfNeeded
  split
  · exact Or.inl rfl
  · split
    · split
      · exact Or.inr rfl
      · exact Or.inl rfl
    · exact Or.inl rfl

/-- The script, branch by branch. -/
theorem incrementWaitScript_eq (now : Int) (k : WaitKey) (maxWait ttl : Int) :
    incrementWaitScript now k maxWait ttl =
      if WaitKey.count k < maxWait then
        if WaitKey.count k + 1 = 1 then
          if expireAccepts now ttl = true then
            (WaitKey.expireEffect (some ⟨WaitKey.count k + 1, WaitKey.deadline k⟩) now ttl,
              .ok 1)
          else (some ⟨WaitKey.count k + 1, WaitKey.deadline k⟩, .error expireError)
        else (some ⟨WaitKey.count k + 1, WaitKey.deadline k⟩, .ok 1)
      else (k, .ok 0) := by
  cases k with
  | none =>
    by_cases h : (0 : Int) < maxWait
    · have h' : ¬ (0 : Int) ≥ maxWait := by omega
      by_cases ha : expireAccepts now ttl = true
      · simp [incrementWaitScript, WaitKey.GET, WaitKey.INCR, WaitKey.count, WaitKey.deadline,
          WaitKey.EXPIRE, h, h', ha]
      · simp [incrementWaitScript, WaitKey.GET, WaitKey.INCR, WaitKey.count, WaitKey.deadline,
          WaitKey.EXPIRE, h, h', ha]
    · have h' : (0 : Int) ≥ maxWait := by omega
      simp [incrementWaitScript, WaitKey.GET, WaitKey.count, h, h']
  | some c =>
    by_cases h : c.value < maxWait
    · have h' : ¬ c.value ≥ maxWait := by omega
      by_cases h1 : c.value + 1 = 1
      · by_cases ha : expireAccepts now ttl = true
        · simp [incrementWaitScript, WaitKey.GET, WaitKey.INCR, WaitKey.count,
            WaitKey.deadline, WaitKey.EXPIRE, h, h', h1, ha]
        · simp [incrementWaitScript, WaitKey.GET, WaitKey.INCR, WaitKey.count,
            WaitKey.deadline, WaitKey.EXPIRE, h, h', h1, ha]
      · simp [incrementWaitScript, WaitKey.GET, WaitKey.INCR, WaitKey.count,
          WaitKey.deadline, h, h', h1]
    · have h' : c.value ≥ maxWait := by omega
      simp [incrementWaitScript, WaitKey.GET, WaitKey.count, h, h']

/-- A script run at or above the limit answers 0 and leaves the key as it
is. -/
theorem incrementWaitScript_denied (now : Int) (k : WaitKey) (maxWait ttl : Int)
    (h : ¬ WaitKey.count k < maxWait) :
    incrementWaitScript now k maxWait ttl = (k, .ok 0) := by
  rw [incrementWaitScript_eq]
  simp only [h, if_false]

/-- A script run below the limit: the incremented key, with `EXPIRE` called
exactly when the new value is 1; a refused `EXPIRE` leaves the incremented key
and raises its error. -/
theorem incrementWaitScript_granted (now : Int) (k : WaitKey) (maxWait ttl : Int)
    (h : WaitKey.count k < maxWait) :
    incrementWaitScript now k maxWait ttl =
      if WaitKey.count k + 1 = 1 then
        if expireAccepts now ttl = true then
          (WaitKey.expireEffect (some ⟨WaitKey.count k + 1, WaitKey.deadline k⟩) now ttl,
            .ok 1)
        else (some ⟨WaitKey.count k + 1, WaitKey.deadline k⟩, .error expireError)
      else (some ⟨WaitKey.count k + 1, WaitKey.deadline k⟩, .ok 1) := by
  rw [incrementWaitScript_eq]
  simp only [h, if_true]

theorem count_expireEffect_le (v : Int) (e : Option Int) (now seconds : Int) (h : 0 ≤ v) :
    0 ≤ WaitKey.count (WaitKey.expireEffect (some ⟨v, e⟩) now seconds) ∧
    WaitKey.count (WaitKey.expireEffect (some ⟨v, e⟩) now seconds) ≤ v := by
  by_cases hs : seconds ≤ 0
  · simp [WaitKey.expireEffect, hs, WaitKey.count, WaitKey.GET, h]
  · simp [WaitKey.expireEffect, hs, WaitKey.count, WaitKey.GET, h]

theorem decrementWaitScript_some (v : Int) (e : Option Int) :
    decrementWaitScript (some ⟨v, e⟩) =
      if 0 < v then (some ⟨v - 1, e⟩, 1) else (some ⟨v, e⟩, 1) := by
  simp only [decrementWaitScript, WaitKey.GET, Option.map_some', gt_iff_lt, WaitKey.DECR]

theorem count_decrementWaitScript (k : WaitKey) :
    (0 ≤ WaitKey.count k → 0 ≤ WaitKey.count (decrementWaitScript k).1) ∧
    WaitKey.count (decrementWaitScript k).1 ≤ max (WaitKey.count k) 0 := by
  cases k with
  | none => simp [decrementWaitScript, WaitKey.GET, WaitKey.count]
  | some c =>
    obtain ⟨v, e⟩ := c
    rw [decrementWaitScript_some]
    by_cases hv : 0 < v
    · simp only [hv, if_true, WaitKey.count, WaitKey.GET, Option.map_some', Option.getD_some]
      constructor
      · intro _; omega
      · simp only [le_max_iff]; left; omega
    · simp only [hv, if_false, WaitKey.count, WaitKey.GET, Option.map_some', Option.getD_some]
      exact ⟨fun h => h, le_max_left _ _⟩

/-- One call keeps the counter within `0 .. W` when the call is an increment
with `maxWait = W` or a decrement. -/
theorem count_waitStep (c : concurrencyCache) (W : Int) (k : WaitKey) (call : WaitCall)
    (hcall : allIncrementWith W [call] = true) (hW : 0 ≤ W)
    (hk : 0 ≤ WaitKey.count k ∧ WaitKey.count k ≤ W) :
    0 ≤ WaitKey.count (waitStep c k call).1 ∧ WaitKey.count (waitStep c k call).1 ≤ W := by
  have hexp : ∀ now, 0 ≤ WaitKey.count (WaitKey.expireIfNeeded k now) ∧
      WaitKey.count (WaitKey.expireIfNeeded k now) ≤ W := by
    intro now
    rcases count_expireIfNeeded k now with h | h
    · rw [h]; exact hk
    · rw [h]; exact ⟨le_refl _, hW⟩
  cases call with
  | increment now maxWait =>
    have hm : maxWait = W := by simpa [allIncrementWith] using hcall
    subst hm
    show 0 ≤ WaitKey.count (incrementWaitScript now _ maxWait c.slotTTLSeconds).1 ∧
      WaitKey.count (incrementWaitScript now _ maxWait c.slotTTLSeconds).1 ≤ maxWait
    by_cases hlt : WaitKey.count (WaitKey.expireIfNeeded k now) < maxWait
    · rw [incrementWaitScript_granted _ _ _ _ hlt]
      have h0 := (hexp now).1
      have hnew : 0 ≤ WaitKey.count (WaitKey.expireIfNeeded k now) + 1 := by omega
      have hplain : 0 ≤ WaitKey.count (some (⟨WaitKey.count (WaitKey.expireIfNeeded k now) + 1,
          WaitKey.deadline (WaitKey.expireIfNeeded k now)⟩ : Counter)) ∧
          WaitKey.count (some (⟨WaitKey.count (WaitKey.expireIfNeeded k now) + 1,
          WaitKey.deadline (WaitKey.expireIfNeeded k now)⟩ : Counter)) ≤ maxWait := by
        simp only [WaitKey.count, WaitKey.GET, Option.map_some', Option.getD_some]
        simp only [WaitKey.count, WaitKey.GET] at hlt h0
        omega
      split
      · split
        · have := count_expireEffect_le (WaitKey.count (WaitKey.expireIfNeeded k now) + 1)
            (WaitKey.deadline (WaitKey.expireIfNeeded k now)) now c.slotTTLSeconds hnew
          exact ⟨this.1, le_trans this.2 (by omega)⟩
        · exact hplain
      · exact hplain
    · rw [incrementWaitScript_denied _ _ _ _ hlt]
      exact hexp now
  | decrement now =>
    show 0 ≤ WaitKey.count (decrementWaitScript _).1 ∧
      WaitKey.count (decrementWaitScript _).1 ≤ W
    have h := count_decrementWaitScript (WaitKey.expireIfNeeded k now)
    have h1 := hexp now
    refine ⟨h.1 h1.1, le_trans h.2 ?_⟩
    exact max_le h1.2 hW

theorem count_waitRun (c : concurrencyCache) (W : Int) (hW : 0 ≤ W) (calls : List WaitCall) :
    ∀ k : WaitKey, allIncrementWith W calls = true →
      (0 ≤ WaitKey.count k ∧ WaitKey.count k ≤ W) →
      0 ≤ WaitKey.count (waitRun c k calls) ∧ WaitKey.count (waitRun c k calls) ≤ W := by
  induction calls with
  | nil => intro k _ hk; exact hk
  | cons call rest ih =>
    intro k hall hk
    have h1 : allIncrementWith W [call] = true := by
      simp only [allIncrementWith, List.all_cons, Bool.and_eq_true] at hall ⊢
      exact ⟨hall.1, by simp⟩
    have h2 : allIncrementWith W rest = true := by
      simp only [allIncrementWith, List.all_cons, Bool.and_eq_true] at hall ⊢
      exact hall.2
    exact ih _ h2 (count_waitStep c W k call h1 hW hk)

theorem allIncrementWith_take (W : Int) (calls : List WaitCall) (n : Nat)
    (h : allIncrementWith W calls = true) : allIncrementWith W (calls.take n) = true := by
  unfold allIncrementWith at h ⊢
  rw [List.all_eq_true] at h ⊢
  intro call hcall
  exact h call (List.mem_of_mem_take hcall)

/-- One call of any kind keeps the counter non-negative. -/
theorem count_nonneg_waitStep (c : concurrencyCache) (k : WaitKey) (call : WaitCall)
    (hk : 0 ≤ WaitKey.count k) : 0 ≤ WaitKey.count (waitStep c k call).1 := by
  have hexp : ∀ now, 0 ≤ WaitKey.count (WaitKey.expireIfNeeded k now) := by
    intro now
    rcases count_expireIfNeeded k now with h | h
    · rw [h]; exact hk
    · rw [h]; exact le_refl _
  cases call with
  | increment now maxWait =>
    show 0 ≤ WaitKey.count (incrementWaitScript now _ maxWait c.slotTTLSeconds).1
    by_cases hlt : WaitKey.count (WaitKey.expireIfNeeded k now) < maxWait
    · rw [incrementWaitScript_granted _ _ _ _ hlt]
      have h0 := hexp now
      have hnew : 0 ≤ WaitKey.count (WaitKey.expireIfNeeded k now) + 1 := by omega
      have hplain : 0 ≤ WaitKey.count (some (⟨WaitKey.count (WaitKey.expireIfNeeded k now) + 1,
          WaitKey.deadline (WaitKey.expireIfNeeded k now)⟩ : Counter)) := by
        simpa only [WaitKey.count, WaitKey.GET, Option.map_some', Option.getD_some] using hnew
      split
      · split
        · exact (count_expireEffect_le _ _ now c.slotTTLSeconds hnew).1
        · exact hplain
      · exact hplain
    · rw [incrementWaitScript_denied _ _ _ _ hlt]
      exact hexp now
  | decrement now =>
    exact (count_decrementWaitScript (WaitKey.expireIfNeeded k now)).1 (hexp now)

theorem count_nonneg_waitRun (c : concurrencyCache) (calls : List WaitCall) :
    ∀ k : WaitKey, 0 ≤ WaitKey.count k → 0 ≤ WaitKey.count (waitRun c k calls) := by
  induction calls with
  | nil => intro k hk; exact hk
  | cons call rest ih =>
    intro k hk
    exact ih _ (count_nonneg_waitStep c k call hk)

/-- When the store accepts the timeout, or no `EXPIRE` is due (the counter is
not 0), the method grants exactly below the limit and reports no error. -/
theorem IncrementWaitCount_granted_iff (c : concurrencyCache) (now W : Int) (k : WaitKey)
    (hacc : expireAccepts now c.slotTTLSeconds = true ∨ WaitKey.count k ≠ 0) :
    ((IncrementWaitCount c now k W).2.1 = true ↔ WaitKey.count k < W) ∧
    (IncrementWaitCount c now k W).2.2 = none := by
  show ((grantedOf (incrementWaitScript now k W c.slotTTLSeconds).2).1 = true ↔ _) ∧
    (grantedOf (incrementWaitScript now k W c.slotTTLSeconds).2).2 = none
  rw [incrementWaitScript_eq]
  by_cases h : WaitKey.count k < W
  · by_cases h1 : WaitKey.count k + 1 = 1
    · have h0 : WaitKey.count k = 0 := by omega
      have ha : expireAccepts now c.slotTTLSeconds = true := by
        rcases hacc with ha | hne
        · exact ha
        · exact absurd h0 hne
      simp [h, h1, ha, grantedOf]
    · simp [h, h1, grantedOf]
  · simp [h, grantedOf]

theorem deadline_decrementWaitScript (k : WaitKey) :
    WaitKey.deadline (decrementWaitScript k).1 = WaitKey.deadline k := by
  cases k with
  | none => rfl
  | some c =>
    obtain ⟨v, e⟩ := c
    rw [decrementWaitScript_some]
    split <;> rfl

/-! ## Lemmas on the per-call limit -/

theorem ZCARD_acquire_le_of_member (c : concurrencyCache) (now : Int) (k : SortedSetKey)
    (maxConcurrency : Int) (requestID : String) (s : Int)
    (hmem : ZSCORE (ZREMRANGEBYSCORE k (now - c.slotTTLSeconds)) requestID = some s) :
    ZCARD (AcquireAccountSlot c now k maxConcurrency requestID).1 ≤ ZCARD k := by
  show ZCARD (acquireScript now k maxConcurrency c.slotTTLSeconds requestID).1 ≤ _
  rw [acquireScript_of_member _ _ _ _ _ s hmem]
  have h1 := ZCARD_expireEffect_le
    (ZADD (ZREMRANGEBYSCORE k (now - c.slotTTLSeconds)) now requestID) now c.slotTTLSeconds
  have h2 := ZCARD_ZADD_of_member _ now requestID s hmem
  have h3 := ZCARD_ZREMRANGEBYSCORE_le k (now - c.slotTTLSeconds)
  split
  · simp only
    omega
  · simp only
    omega

/-- One call, at a time when the store accepts the timeout, keeps the
cardinality within the limit of the most recent admission of a new
identifier. -/
theorem ZCARD_le_lastAdmitted_step (c : concurrencyCache) (k : SortedSetKey)
    (last : Option Int) (call : LedgerCall)
    (hacc : expireAccepts call.time c.slotTTLSeconds = true) (hk : ZCARD k ≤ last.getD 0) :
    ZCARD (ledgerStep c k call).1 ≤
      (lastAdmittedLimit c k last [call]).getD 0 := by
  cases call with
  | acquire now maxConcurrency requestID =>
    have ha : expireAccepts now c.slotTTLSeconds = true := hacc
    have he := ZCARD_expireIfNeeded_le k now
    cases hz : ZSCORE (ZREMRANGEBYSCORE (expireIfNeeded k now) (now - c.slotTTLSeconds))
        requestID with
    | some s =>
      have hcard := ZCARD_acquire_le_of_member c now (expireIfNeeded k now) maxConcurrency
        requestID s hz
      have hlast : lastAdmittedLimit c k last [.acquire now maxConcurrency requestID] = last := by
        simp only [lastAdmittedLimit, ledgerStep, GetAccountConcurrency, getCountScript, hz]
        split <;> simp_all
      rw [hlast]
      show ZCARD (AcquireAccountSlot c now (expireIfNeeded k now) maxConcurrency requestID).1 ≤ _
      omega
    | none =>
      have hiff := acquire_granted_iff_of_new c now (expireIfNeeded k now) maxConcurrency
        requestID ha hz
      have hs := ZCARD_ZREMRANGEBYSCORE_le (expireIfNeeded k now) (now - c.slotTTLSeconds)
      by_cases hlt : ZCARD (ZREMRANGEBYSCORE (expireIfNeeded k now) (now - c.slotTTLSeconds))
          < maxConcurrency
      · have hgr := hiff.mpr hlt
        have hlast : lastAdmittedLimit c k last [.acquire now maxConcurrency requestID] =
            some maxConcurrency := by
          simp only [lastAdmittedLimit, ledgerStep, GetAccountConcurrency, getCountScript, hz,
            hgr, if_true]
        rw [hlast]
        show ZCARD (acquireScript now (expireIfNeeded k now) maxConcurrency c.slotTTLSeconds
          requestID).1 ≤ maxConcurrency
        rw [← acquireScript_sweep]
        exact ZCARD_acquireScript_le now _ maxConcurrency _ requestID (le_of_lt hlt)
      · have hden : (AcquireAccountSlot c now (expireIfNeeded k now) maxConcurrency
            requestID).2.1 = false := by
          cases hg : (AcquireAccountSlot c now (expireIfNeeded k now) maxConcurrency
            requestID).2.1 with
          | true => exact absurd (hiff.mp hg) hlt
          | false => rfl
        have hlast : lastAdmittedLimit c k last [.acquire now maxConcurrency requestID] =
            last := by
          simp only [lastAdmittedLimit, ledgerStep, hden]
        rw [hlast]
        show ZCARD (acquireScript now (expireIfNeeded k now) maxConcurrency c.slotTTLSeconds
          requestID).1 ≤ _
        rw [acquireScript_of_new _ _ _ _ _ hz]
        simp only [hlt, if_false]
        omega
  | release now requestID =>
    have hlast : lastAdmittedLimit c k last [.release now requestID] = last := rfl
    rw [hlast]
    exact le_trans (le_trans (ZCARD_ZREM_le _ requestID) (ZCARD_expireIfNeeded_le k now)) hk
  | getConcurrency now =>
    have hlast : lastAdmittedLimit c k last [.getConcurrency now] = last := rfl
    rw [hlast]
    exact le_trans (le_trans (ZCARD_ZREMRANGEBYSCORE_le _ _) (ZCARD_expireIfNeeded_le k now)) hk

theorem lastAdmittedLimit_cons (c : concurrencyCache) (k : SortedSetKey)
    (last : Option Int) (call : LedgerCall) (rest : List LedgerCall) :
    lastAdmittedLimit c k last (call :: rest) =
      lastAdmittedLimit c (ledgerStep c k call).1 (lastAdmittedLimit c k last [call]) rest := by
  simp only [lastAdmittedLimit]

theorem ZCARD_le_lastAdmitted (c : concurrencyCache) (calls : List LedgerCall) :
    ∀ (k : SortedSetKey) (last : Option Int), timeoutAccepted c calls = true →
      ZCARD k ≤ last.getD 0 →
      ZCARD (ledgerRun c k calls) ≤ (lastAdmittedLimit c k last calls).getD 0 := by
  induction calls with
  | nil => intro k last _ hk; exact hk
  | cons call rest ih =>
    intro k last hacc hk
    simp only [timeoutAccepted, List.all_cons, Bool.and_eq_true] at hacc
    rw [lastAdmittedLimit_cons]
    exact ih _ _ hacc.2 (ZCARD_le_lastAdmitted_step c k last call hacc.1 hk)

/-! ## Lemmas on construction -/

theorem wrapInt_of_fits (bits : Nat) (x : Int) (hbits : bits = 32 ∨ bits = 64)
    (h0 : 0 ≤ x) (h1 : x < 2 ^ (bits - 1)) : wrapInt bits x = x := by
  rcases hbits with rfl | rfl
  · norm_num [wrapInt] at h1 ⊢
    omega
  · norm_num [wrapInt] at h1 ⊢
    omega

/-! ## Lemmas on the deadline of a ledger key -/

theorem coveredUntil_absent (ttl t : Int) : coveredUntil absent ttl t := by
  intro h
  exact absurd rfl h

theorem coveredUntil_mono (k : SortedSetKey) (ttl t t' : Int) (htt : t ≤ t')
    (h : coveredUntil k ttl t) : coveredUntil k ttl t' := by
  intro hne
  obtain ⟨d, hd, hle, hall⟩ := h hne
  exact ⟨d, hd, by omega, hall⟩

/-- A key with some of the members and, if any is left, the same deadline. -/
theorem coveredUntil_of_sub (k k' : SortedSetKey) (ttl t : Int)
    (hsub : ∀ e ∈ k'.members, e ∈ k.members)
    (hexp : k'.members ≠ [] → k'.expireAt = k.expireAt)
    (h : coveredUntil k ttl t) : coveredUntil k' ttl t := by
  intro hne
  have hkne : k.members ≠ [] := by
    intro hnil
    obtain ⟨e, he⟩ := List.exists_mem_of_ne_nil _ hne
    have := hsub e he
    rw [hnil] at this
    simp at this
  obtain ⟨d, hd, hle, hall⟩ := h hkne
  exact ⟨d, by rw [hexp hne, hd], hle, fun e he => hall e (hsub e he)⟩

theorem expireAt_ofMembers (ms : List (String × Int)) (e : Option Int)
    (h : (ofMembers ms e).members ≠ []) : (ofMembers ms e).expireAt = e := by
  rw [members_ofMembers] at h
  rw [ofMembers_of_ne_nil e h]

theorem coveredUntil_ZREMRANGEBYSCORE (k : SortedSetKey) (max ttl t : Int)
    (h : coveredUntil k ttl t) : coveredUntil (ZREMRANGEBYSCORE k max) ttl t := by
  apply coveredUntil_of_sub k _ ttl t _ _ h
  · intro e he
    rw [members_ZREMRANGEBYSCORE] at he
    exact (List.mem_filter.mp he).1
  · exact expireAt_ofMembers _ _

theorem coveredUntil_ZREM (k : SortedSetKey) (r : String) (ttl t : Int)
    (h : coveredUntil k ttl t) : coveredUntil (ZREM k r) ttl t := by
  apply coveredUntil_of_sub k _ ttl t _ _ h
  · intro e he
    rw [members_ZREM] at he
    exact (List.mem_filter.mp he).1
  · exact expireAt_ofMembers _ _

theorem coveredUntil_expireIfNeeded (k : SortedSetKey) (now ttl t : Int)
    (h : coveredUntil k ttl t) : coveredUntil (expireIfNeeded k now) ttl t := by
  unfold expireIfNeeded
  split
  · split
    · exact coveredUntil_absent ttl t
    · exact h
  · exact h

theorem mem_ZADD (k : SortedSetKey) (score : Int) (r : String) (e : String × Int)
    (h : e ∈ (ZADD k score r).members) : e = (r, score) ∨ e ∈ k.members := by
  unfold ZADD at h
  split at h
  · simp only [List.mem_map] at h
    obtain ⟨x, hx, hxe⟩ := h
    by_cases hxr : x.1 = r
    · simp only [hxr, if_true] at hxe
      exact Or.inl hxe.symm
    · simp only [hxr, if_false] at hxe
      rw [← hxe]
      exact Or.inr hx
  · simp only [List.mem_append, List.mem_singleton] at h
    rcases h with h | h
    · exact Or.inr h
    · exact Or.inl h

/-- The `ZADD` and the accepted `EXPIRE` of a granted acquire leave a covered
key. -/
theorem coveredUntil_expireEffect_ZADD (k : SortedSetKey) (now ttl : Int) (r : String)
    (h : coveredUntil k ttl now) :
    coveredUntil (expireEffect (ZADD k now r) now ttl) ttl now := by
  unfold expireEffect
  split
  · next hnil => intro hne; exact absurd hnil hne
  · split
    · exact coveredUntil_absent ttl now
    · intro _
      refine ⟨now + ttl, rfl, le_refl _, fun e he => ?_⟩
      rcases mem_ZADD k now r e he with heq | hin
      · rw [heq]
      · have hkne : k.members ≠ [] := List.ne_nil_of_mem hin
        obtain ⟨d, _, hle, hall⟩ := h hkne
        have := hall e hin
        omega

theorem coveredUntil_acquireScript (now : Int) (k : SortedSetKey)
    (maxConcurrency ttl : Int) (requestID : String) (hacc : expireAccepts now ttl = true)
    (h : coveredUntil k ttl now) :
    coveredUntil (acquireScript now k maxConcurrency ttl requestID).1 ttl now := by
  have hs := coveredUntil_ZREMRANGEBYSCORE k (now - ttl) ttl now h
  have hadd := coveredUntil_expireEffect_ZADD _ now ttl requestID hs
  cases hz : ZSCORE (ZREMRANGEBYSCORE k (now - ttl)) requestID with
  | some s =>
    rw [acquireScript_of_member _ _ _ _ _ s hz]
    simp only [hacc, if_true]
    exact hadd
  | none =>
    rw [acquireScript_of_new _ _ _ _ _ hz]
    simp only [hacc, if_true]
    split
    · exact hadd
    · exact hs

theorem coveredUntil_ledgerStep (ttl t : Int) (k : SortedSetKey) (call : LedgerCall)
    (hacc : expireAccepts call.time ttl = true)
    (ht : t ≤ call.time) (h : coveredUntil k ttl t) :
    coveredUntil (ledgerStep ⟨ttl⟩ k call).1 ttl call.time := by
  have he : coveredUntil (expireIfNeeded k call.time) ttl call.time :=
    coveredUntil_expireIfNeeded _ _ _ _ (coveredUntil_mono k ttl t _ ht h)
  cases call with
  | acquire now maxConcurrency requestID =>
    exact coveredUntil_acquireScript now _ maxConcurrency ttl requestID hacc he
  | release now requestID => exact coveredUntil_ZREM _ requestID ttl now he
  | getConcurrency now => exact coveredUntil_ZREMRANGEBYSCORE _ _ ttl now he

theorem coveredUntil_ledgerRun (ttl : Int) (calls : List LedgerCall) :
    ∀ (k : SortedSetKey) (t : Int), timeoutAccepted ⟨ttl⟩ calls = true →
      coveredUntil k ttl t → clockFrom t calls = true →
      ∃ t' : Int, coveredUntil (ledgerRun ⟨ttl⟩ k calls) ttl t' := by
  induction calls with
  | nil => intro k t _ h _; exact ⟨t, h⟩
  | cons call rest ih =>
    intro k t hacc h hclock
    simp only [clockFrom, Bool.and_eq_true, decide_eq_true_eq] at hclock
    simp only [timeoutAccepted, List.all_cons, Bool.and_eq_true] at hacc
    exact ih _ call.time hacc.2 (coveredUntil_ledgerStep ttl t k call hacc.1 hclock.1 h)
      hclock.2

theorem clockFrom_of_monotoneClock (calls : List LedgerCall)
    (h : monotoneClock calls = true) : ∃ t : Int, clockFrom t calls = true := by
  cases calls with
  | nil => exact ⟨0, rfl⟩
  | cons call rest =>
    refine ⟨call.time, ?_⟩
    simp only [monotoneClock] at h
    simp only [clockFrom, Bool.and_eq_true, decide_eq_true_eq]
    exact ⟨le_refl _, h⟩

/-! ## Lemmas on the deadline of a counter key -/

/-- One call at a time when the store accepts the timeout leaves a counter key
that does not exist or carries a deadline. -/
theorem deadline_waitStep (c : concurrencyCache) (k : WaitKey) (call : WaitCall)
    (hacc : expireAccepts call.time c.slotTTLSeconds = true)
    (h : k = none ∨ ∃ (v d : Int), k = some ⟨v, some d⟩) :
    (waitStep c k call).1 = none ∨ ∃ (v d : Int), (waitStep c k call).1 = some ⟨v, some d⟩ := by
  have hexp : ∀ now, WaitKey.expireIfNeeded k now = none ∨
      ∃ (v d : Int), WaitKey.expireIfNeeded k now = some ⟨v, some d⟩ := by
    intro now
    rcases count_expireIfNeeded k now with h' | h'
    · rw [h']; exact h
    · exact Or.inl h'
  cases call with
  | increment now maxWait =>
    have ha : expireAccepts now c.slotTTLSeconds = true := hacc
    show (incrementWaitScript now _ maxWait c.slotTTLSeconds).1 = none ∨
      ∃ (v d : Int), (incrementWaitScript now _ maxWait c.slotTTLSeconds).1 = some ⟨v, some d⟩
    by_cases hlt : WaitKey.count (WaitKey.expireIfNeeded k now) < maxWait
    · rw [incrementWaitScript_granted _ _ _ _ hlt]
      simp only [ha, if_true]
      split
      · by_cases hs : c.slotTTLSeconds ≤ 0
        · left; simp [WaitKey.expireEffect, hs]
        · right
          exact ⟨WaitKey.count (WaitKey.expireIfNeeded k now) + 1, now + c.slotTTLSeconds,
            by simp [WaitKey.expireEffect, hs]⟩
      · next hne =>
        rcases hexp now with hnone | ⟨v, d, hsome⟩
        · rw [hnone] at hne
          exact absurd rfl hne
        · right
          rw [hsome]
          exact ⟨_, d, rfl⟩
    · rw [incrementWaitScript_denied _ _ _ _ hlt]
      exact hexp now
  | decrement now =>
    show (decrementWaitScript _).1 = none ∨
      ∃ (v d : Int), (decrementWaitScript _).1 = some ⟨v, some d⟩
    rcases hexp now with hnone | ⟨v, d, hsome⟩
    · rw [hnone]; exact Or.inl rfl
    · rw [hsome, decrementWaitScript_some]
      right
      split
      · exact ⟨_, d, rfl⟩
      · exact ⟨_, d, rfl⟩

theorem deadline_waitRun (c : concurrencyCache) (calls : List WaitCall) :
    ∀ k : WaitKey, waitTimeoutAccepted c calls = true →
      (k = none ∨ ∃ (v d : Int), k = some ⟨v, some d⟩) →
      (waitRun c k calls = none ∨ ∃ (v d : Int), waitRun c k calls = some ⟨v, some d⟩) := by
  induction calls with
  | nil => intro k _ h; exact h
  | cons call rest ih =>
    intro k hacc h
    simp only [waitTimeoutAccepted, List.all_cons, Bool.and_eq_true] at hacc
    exact ih _ hacc.2 (deadline_waitStep c k call hacc.1 h)

/-! ## Lemmas on key names -/

theorem digitChar_inj : ∀ a, a < 10 → ∀ b, b < 10 → Nat.digitChar a = Nat.digitChar b → a = b := by
  decide

theorem digitChar_ne_minus : ∀ a, a < 10 → Nat.digitChar a ≠ '-' := by
  decide

theorem toDigitsCore_eq (fuel : Nat) : ∀ (n : Nat) (ds : List Char), 0 < n → n < fuel →
    Nat.toDigitsCore 10 fuel n ds = ((Nat.digits 10 n).reverse.map Nat.digitChar) ++ ds := by
  induction fuel with
  | zero => intro n ds _ h; omega
  | succ fuel ih =>
    intro n ds hn hf
    rw [Nat.digits_def' (by decide) hn]
    simp only [Nat.toDigitsCore]
    by_cases h0 : n / 10 = 0
    · simp [h0]
    · simp only [h0, if_false]
      have hlt : n / 10 < fuel := by omega
      rw [ih (n / 10) _ (by omega) hlt]
      simp

theorem toDigits_pos (n : Nat) (hn : 0 < n) :
    Nat.toDigits 10 n = (Nat.digits 10 n).reverse.map Nat.digitChar := by
  unfold Nat.toDigits
  rw [toDigitsCore_eq (n + 1) n [] hn (by omega)]
  simp

theorem toDigits_zero : Nat.toDigits 10 0 = ['0'] := by decide

theorem map_digitChar_inj : ∀ (l l' : List Nat), (∀ d ∈ l, d < 10) → (∀ d ∈ l', d < 10) →
    l.map Nat.digitChar = l'.map Nat.digitChar → l = l' := by
  intro l
  induction l with
  | nil =>
    intro l' _ _ h
    cases l' with
    | nil => rfl
    | cons b t => simp at h
  | cons a t ih =>
    intro l' hl hl' h
    cases l' with
    | nil => simp at h
    | cons b t' =>
      simp only [List.map_cons, List.cons.injEq] at h
      have hab := digitChar_inj a (hl a (by simp)) b (hl' b (by simp)) h.1
      have := ih t' (fun d hd => hl d (by simp [hd])) (fun d hd => hl' d (by simp [hd])) h.2
      rw [hab, this]

theorem toDigits_ne_zero_repr (n : Nat) (hn : 0 < n) : Nat.toDigits 10 n ≠ ['0'] := by
  rw [toDigits_pos n hn]
  intro h
  have hne : Nat.digits 10 n ≠ [] := Nat.digits_ne_nil_iff_ne_zero.mpr (by omega)
  have hlast := Nat.getLast_digit_ne_zero 10 (m := n) (by omega)
  have h1 : (Nat.digits 10 n).reverse.map Nat.digitChar = [0].map Nat.digitChar := by
    rw [h]; rfl
  have h2 := map_digitChar_inj _ _ (fun d hd => Nat.digits_lt_base (by decide) (List.mem_reverse.mp hd))
    (by decide) h1
  have h3 : Nat.digits 10 n = [0] := by
    have := congrArg List.reverse h2
    simpa using this
  apply hlast
  simp [h3]

theorem toDigits_injective (n m : Nat) (h : Nat.toDigits 10 n = Nat.toDigits 10 m) : n = m := by
  rcases Nat.eq_zero_or_pos n with rfl | hn
  · rcases Nat.eq_zero_or_pos m with rfl | hm
    · rfl
    · rw [toDigits_zero] at h
      exact absurd h.symm (toDigits_ne_zero_repr m hm)
  · rcases Nat.eq_zero_or_pos m with rfl | hm
    · rw [toDigits_zero] at h
      exact absurd h (toDigits_ne_zero_repr n hn)
    · rw [toDigits_pos n hn, toDigits_pos m hm] at h
      have h2 := map_digitChar_inj _ _
        (fun d hd => Nat.digits_lt_base (by decide) (List.mem_reverse.mp hd))
        (fun d hd => Nat.digits_lt_base (by decide) (List.mem_reverse.mp hd)) h
      have := congrArg List.reverse h2
      simp only [List.reverse_reverse] at this
      exact Nat.digits_inj_iff.mp this

theorem toDigits_no_minus (n : Nat) : ∀ ch ∈ Nat.toDigits 10 n, ch ≠ '-' := by
  rcases Nat.eq_zero_or_pos n with rfl | hn
  · decide
  · rw [toDigits_pos n hn]
    intro ch hch
    obtain ⟨d, hd, rfl⟩ := List.mem_map.mp hch
    exact digitChar_ne_minus d (Nat.digits_lt_base (by decide) (List.mem_reverse.mp hd))

theorem toString_int_data (i : Int) :
    (toString i).data =
      if i < 0 then '-' :: Nat.toDigits 10 i.natAbs else Nat.toDigits 10 i.natAbs := by
  cases i with
  | ofNat m =>
    have : ¬ (Int.ofNat m < 0) := by simp
    simp only [this, if_false]
    rfl
  | negSucc m =>
    have : Int.negSucc m < 0 := Int.negSucc_lt_zero m
    simp only [this, if_true]
    rfl

theorem toString_int_injective (i j : Int) (h : toString i = toString j) : i = j := by
  have hd := congrArg String.data h
  rw [toString_int_data, toString_int_data] at hd
  by_cases hi : i < 0 <;> by_cases hj : j < 0
  · simp only [hi, hj, if_true, List.cons.injEq, true_and] at hd
    have := toDigits_injective _ _ hd
    omega
  · simp only [hi, hj, if_true, if_false] at hd
    have := toDigits_no_minus j.natAbs '-' (by rw [← hd]; simp)
    exact absurd rfl this
  · simp only [hi, hj, if_true, if_false] at hd
    have := toDigits_no_minus i.natAbs '-' (by rw [hd]; simp)
    exact absurd rfl this
  · simp only [hi, hj, if_false] at hd
    have := toDigits_injective _ _ hd
    omega

theorem append_left_cancel_string (p a b : String) (h : p ++ a = p ++ b) : a = b := by
  have hd := congrArg String.data h
  simp only [String.data_append] at hd
  exact String.ext (List.append_cancel_left hd)

theorem accountSlotKey_injective (i j : Int) (h : accountSlotKey i = accountSlotKey j) :
    i = j :=
  toString_int_injective i j (append_left_cancel_string _ _ _ h)

theorem userSlotKey_injective (i j : Int) (h : userSlotKey i = userSlotKey j) : i = j :=
  toString_int_injective i j (append_left_cancel_string _ _ _ h)

theorem waitQueueKey_injective (i j : Int) (h : waitQueueKey i = waitQueueKey j) : i = j :=
  toString_int_injective i j (append_left_cancel_string _ _ _ h)

theorem accountSlotKey_ne_userSlotKey (i j : Int) : accountSlotKey i ≠ userSlotKey j := by
  intro h
  have hd := congrArg String.data h
  simp only [accountSlotKey, userSlotKey, accountSlotKeyPrefix, userSlotKeyPrefix,
    String.data_append] at hd
  have h12 := congrArg (fun l => l.get? 12) hd
  simp at h12

theorem accountSlotKey_ne_waitQueueKey (i j : Int) : accountSlotKey i ≠ waitQueueKey j := by
  intro h
  have hd := congrArg String.data h
  simp only [accountSlotKey, waitQueueKey, accountSlotKeyPrefix, waitQueueKeyPrefix,
    String.data_append] at hd
  have h12 := congrArg (fun l => l.get? 12) hd
  simp at h12

theorem userSlotKey_ne_waitQueueKey (i j : Int) : userSlotKey i ≠ waitQueueKey j := by
  intro h
  have hd := congrArg String.data h
  simp only [userSlotKey, waitQueueKey, userSlotKeyPrefix, waitQueueKeyPrefix,
    String.data_append] at hd
  have h12 := congrArg (fun l => l.get? 12) hd
  simp at h12

/-- A run against one key leaves the state under every other name as it is. -/
theorem atKey_other {σ α : Type} (key name : String) (op : σ → σ × α) (store : String → σ)
    (h : name ≠ key) : (atKey key op store).1 name = store name := by
  simp [atKey, h]

/-- A run against one key answers from the state under that key alone. -/
theorem atKey_reads_own {σ α : Type} (key : String) (op : σ → σ × α)
    (store store' : String → σ) (h : store' key = store key) :
    (atKey key op store').2 = (atKey key op store).2 ∧
    (atKey key op store').1 key = (atKey key op store).1 key := by
  simp [atKey, h]

/-! ## The claims -/

/-- C1 (bounded concurrency).  Starting from the key that does not exist, for
every limit `M ≥ 0`, every TTL and every finite sequence of acquire (all with
`maxConcurrency = M`), release and GetConcurrency calls, run at arbitrary store
times, the ledger holds at most `M` members after every step, and so at any
time at most `M` of them are unexpired.  Scenario A: with `M = 2`,
acquire(A), acquire(B), acquire(C), release(B), acquire(C) answer
true, true, false, -, true. -/
theorem C1_bounded_concurrency (c : concurrencyCache) (M : Int) (hM : 0 ≤ M)
    (calls : List LedgerCall) (hcalls : allAcquireWith M calls = true) :
    (∀ n : Nat, ZCARD (ledgerRun c absent (calls.take n)) ≤ M) ∧
    (∀ (n : Nat) (now : Int),
      liveCount (ledgerRun c absent (calls.take n)) now c.slotTTLSeconds ≤ M) ∧
    ledgerReplies ⟨900⟩ absent
      [.acquire 100 2 "A", .acquire 101 2 "B", .acquire 102 2 "C", .release 103 "B",
       .acquire 104 2 "C"]
      = [.granted true, .granted true, .granted false, .released, .granted true] := by
  have hinv : ∀ n : Nat, ZCARD (ledgerRun c absent (calls.take n)) ≤ M := fun n =>
    ZCARD_ledgerRun_le c M (calls.take n) absent (by simpa [ZCARD, absent] using hM)
      (allAcquireWith_take M calls n hcalls)
  refine ⟨hinv, fun n now => le_trans (liveCount_le_ZCARD _ _ _) (hinv n), by decide⟩

/-- Witness of C1 on scenario A. -/
theorem C1_bounded_concurrency_witness :
    (0 : Int) ≤ 2 ∧
    allAcquireWith 2
      [.acquire 100 2 "A", .acquire 101 2 "B", .acquire 102 2 "C", .release 103 "B",
       .acquire 104 2 "C"] = true ∧
    ZCARD (ledgerRun ⟨900⟩ absent
      ([LedgerCall.acquire 100 2 "A", .acquire 101 2 "B", .acquire 102 2 "C",
        .release 103 "B", .acquire 104 2 "C"].take 5)) ≤ 2 :=
  ⟨by decide, by decide,
    (C1_bounded_concurrency ⟨900⟩ 2 (by decide)
      [.acquire 100 2 "A", .acquire 101 2 "B", .acquire 102 2 "C", .release 103 "B",
       .acquire 104 2 "C"] (by decide)).1 5⟩

/-- C2, as stated, fails at both ends of the TTL range.  With the TTL
9223372036854775800 (what `NewConcurrencyCache` configures for 153722867280912930
minutes), the identifier `A` is new and the post-sweep count 0 is below the
limit 1, yet the acquire is not granted: the `EXPIRE` that follows the `ZADD`
is refused, the method returns `(false, err)` and `A` stays in the ledger
without deadline.  With the TTL 0 the acquire is granted, yet the key holds no
member afterwards (the `EXPIRE` with a zero timeout removed it) and has no
deadline. -/
theorem C2_admission_counterexample :
    (NewConcurrencyCache 64 153722867280912930).slotTTLSeconds = 9223372036854775800 ∧
    ZSCORE (ZREMRANGEBYSCORE absent (100 - 9223372036854775800)) "A" = none ∧
    ZCARD (ZREMRANGEBYSCORE absent (100 - 9223372036854775800)) < 1 ∧
    AcquireUserSlot ⟨9223372036854775800⟩ 100 absent 1 "A" =
      (⟨[("A", 100)], none⟩, (false, some expireError)) ∧
    ZSCORE (ZREMRANGEBYSCORE absent (100 - 0)) "A" = none ∧
    (AcquireUserSlot ⟨0⟩ 100 absent 1 "A").2.1 = true ∧
    (AcquireUserSlot ⟨0⟩ 100 absent 1 "A").1.members ≠
      (ZREMRANGEBYSCORE absent (100 - 0)).members ++ [("A", 100)] ∧
    ZCARD (AcquireUserSlot ⟨0⟩ 100 absent 1 "A").1 ≠
      ZCARD (ZREMRANGEBYSCORE absent (100 - 0)) + 1 ∧
    (AcquireUserSlot ⟨0⟩ 100 absent 1 "A").1.expireAt ≠ some (100 + 0) := by
  decide

/-- C2 (admission of a new identifier), amended to a positive TTL that the
store accepts.  For every key, store time, limit and TTL `> 0` that the store
accepts as an `EXPIRE` timeout at `now`, and every `requestID` that is not a
member after the sweep: the acquire is granted exactly when the post-sweep
cardinality is below `maxConcurrency`, without error; when granted, the key
holds the post-sweep members followed by `requestID` with score `now` (one
member more, `requestID` scored `now`, every other score as after the sweep)
and its deadline is `now + ttl`. -/
theorem C2_admission_new_identifier (now ttl maxConcurrency : Int) (k : SortedSetKey)
    (requestID : String) (httl : 0 < ttl) (hacc : expireAccepts now ttl = true)
    (hnew : ZSCORE (ZREMRANGEBYSCORE k (now - ttl)) requestID = none) :
    ((AcquireUserSlot ⟨ttl⟩ now k maxConcurrency requestID).2.1 = true ↔
      ZCARD (ZREMRANGEBYSCORE k (now - ttl)) < maxConcurrency) ∧
    (AcquireUserSlot ⟨ttl⟩ now k maxConcurrency requestID).2.2 = none ∧
    ((AcquireUserSlot ⟨ttl⟩ now k maxConcurrency requestID).2.1 = true →
      (AcquireUserSlot ⟨ttl⟩ now k maxConcurrency requestID).1.members =
        (ZREMRANGEBYSCORE k (now - ttl)).members ++ [(requestID, now)] ∧
      ZCARD (AcquireUserSlot ⟨ttl⟩ now k maxConcurrency requestID).1 =
        ZCARD (ZREMRANGEBYSCORE k (now - ttl)) + 1 ∧
      ZSCORE (AcquireUserSlot ⟨ttl⟩ now k maxConcurrency requestID).1 requestID = some now ∧
      (∀ m : String, m ≠ requestID →
        ZSCORE (AcquireUserSlot ⟨ttl⟩ now k maxConcurrency requestID).1 m =
          ZSCORE (ZREMRANGEBYSCORE k (now - ttl)) m) ∧
      (AcquireUserSlot ⟨ttl⟩ now k maxConcurrency requestID).1.expireAt = some (now + ttl)) := by
  have hscript := acquireScript_of_new now k maxConcurrency ttl requestID hnew
  simp only [hacc, if_true] at hscript
  have hadd := members_ZADD_new _ now requestID hnew
  have hne : (ZADD (ZREMRANGEBYSCORE k (now - ttl)) now requestID).members ≠ [] := by
    rw [hadd]; simp
  have hexp : expireEffect (ZADD (ZREMRANGEBYSCORE k (now - ttl)) now requestID) now ttl =
      ⟨(ZREMRANGEBYSCORE k (now - ttl)).members ++ [(requestID, now)], some (now + ttl)⟩ := by
    rw [expireEffect_of_pos _ now ttl hne httl, hadd]
  by_cases hlt : ZCARD (ZREMRANGEBYSCORE k (now - ttl)) < maxConcurrency
  · have hr : AcquireUserSlot ⟨ttl⟩ now k maxConcurrency requestID =
        (⟨(ZREMRANGEBYSCORE k (now - ttl)).members ++ [(requestID, now)], some (now + ttl)⟩,
          (true, none)) := by
      unfold AcquireUserSlot
      simp only [hscript, hlt, if_true, hexp, grantedOf]
      rfl
    rw [hr]
    refine ⟨⟨fun _ => hlt, fun _ => rfl⟩, rfl, fun _ => ⟨rfl, ?_, ?_, ?_, rfl⟩⟩
    · simp [ZCARD]
    · exact lookup_append_new _ _ _ hnew
    · intro m hm
      exact lookup_append_other _ _ _ _ hm
  · have hr : AcquireUserSlot ⟨ttl⟩ now k maxConcurrency requestID =
        (ZREMRANGEBYSCORE k (now - ttl), (false, none)) := by
      unfold AcquireUserSlot
      simp only [hscript, hlt, if_false, grantedOf]
      rfl
    rw [hr]
    refine ⟨⟨fun h => ?_, fun h => absurd h hlt⟩, rfl, fun h => ?_⟩
    · simp at h
    · simp at h

/-- Witness of C2: a second identifier admitted next to a live one. -/
theorem C2_admission_new_identifier_witness :
    (0 : Int) < 900 ∧
    expireAccepts 130 900 = true ∧
    ZSCORE (ZREMRANGEBYSCORE ⟨[("A", 100)], some 1000⟩ (130 - 900)) "B" = none ∧
    (AcquireUserSlot ⟨900⟩ 130 ⟨[("A", 100)], some 1000⟩ 2 "B").2.1 = true ∧
    (AcquireUserSlot ⟨900⟩ 130 ⟨[("A", 100)], some 1000⟩ 2 "B").1.expireAt
      = some (130 + 900) :=
  ⟨by decide, by decide, by decide, by decide,
    ((C2_admission_new_identifier 130 900 2 ⟨[("A", 100)], some 1000⟩ "B"
      (by decide) (by decide) (by decide)).2.2 (by decide)).2.2.2.2⟩

/-- C3, as stated, fails for a TTL the store refuses.  With the TTL
9223372036854775800 (what `NewConcurrencyCache` configures for 153722867280912930
minutes), acquire(A) at store time 100 leaves `A` in the ledger, scored 100
and without deadline; at store time 101 `A` survives the sweep, and the
acquire of `A` is not granted: the `EXPIRE` after the `ZADD` is refused and
the method returns `(false, err)`, the key still without deadline. -/
theorem C3_reacquire_counterexample :
    (NewConcurrencyCache 64 153722867280912930).slotTTLSeconds = 9223372036854775800 ∧
    ledgerRun ⟨9223372036854775800⟩ absent [.acquire 100 1 "A"] = ⟨[("A", 100)], none⟩ ∧
    ZSCORE (ZREMRANGEBYSCORE ⟨[("A", 100)], none⟩ (101 - 9223372036854775800)) "A"
      = some 100 ∧
    AcquireAccountSlot ⟨9223372036854775800⟩ 101 ⟨[("A", 100)], none⟩ 1 "A" =
      (⟨[("A", 101)], none⟩, (false, some expireError)) := by
  decide

/-- C3 (idempotent re-acquire), amended to a TTL that the store accepts.  For
every store time, every TTL that the store accepts as an `EXPIRE` timeout at
`now`, and every key (when the TTL is not positive: every key without a score
later than `now`, as all keys are that the code writes under a non-decreasing
clock), if `requestID` is a member after the sweep, then for every
`maxConcurrency` (zero, negative or below the cardinality included) the
acquire is granted without error, the identifiers of the key are those left by
the sweep (same cardinality), the score of `requestID` is `now`, every other
score is as after the sweep, and the deadline is `now + ttl`. -/
theorem C3_idempotent_reacquire (now ttl maxConcurrency : Int) (k : SortedSetKey)
    (requestID : String) (s : Int) (hacc : expireAccepts now ttl = true)
    (hpast : 0 < ttl ∨ ∀ e ∈ k.members, e.2 ≤ now)
    (hmem : ZSCORE (ZREMRANGEBYSCORE k (now - ttl)) requestID = some s) :
    (AcquireAccountSlot ⟨ttl⟩ now k maxConcurrency requestID).2 = (true, none) ∧
    (AcquireAccountSlot ⟨ttl⟩ now k maxConcurrency requestID).1.members.map Prod.fst =
      (ZREMRANGEBYSCORE k (now - ttl)).members.map Prod.fst ∧
    ZCARD (AcquireAccountSlot ⟨ttl⟩ now k maxConcurrency requestID).1 =
      ZCARD (ZREMRANGEBYSCORE k (now - ttl)) ∧
    ZSCORE (AcquireAccountSlot ⟨ttl⟩ now k maxConcurrency requestID).1 requestID = some now ∧
    (∀ m : String, m ≠ requestID →
      ZSCORE (AcquireAccountSlot ⟨ttl⟩ now k maxConcurrency requestID).1 m =
        ZSCORE (ZREMRANGEBYSCORE k (now - ttl)) m) ∧
    (AcquireAccountSlot ⟨ttl⟩ now k maxConcurrency requestID).1.expireAt =
      some (now + ttl) := by
  have httl : 0 < ttl := by
    rcases hpast with h | h
    · exact h
    · have hin := mem_of_lookup_eq_some _ _ _ hmem
      rw [members_ZREMRANGEBYSCORE, List.mem_filter] at hin
      have h1 := h _ hin.1
      have h2 : ¬ s ≤ now - ttl := by simpa using hin.2
      simp only at h1
      omega
  have hscript := acquireScript_of_member now k maxConcurrency ttl requestID s hmem
  simp only [hacc, if_true] at hscript
  have hadd := members_ZADD_member _ now requestID s hmem
  have hne : (ZADD (ZREMRANGEBYSCORE k (now - ttl)) now requestID).members ≠ [] := by
    rw [hadd]
    simpa using members_ne_nil_of_ZSCORE _ _ _ hmem
  have hr : AcquireAccountSlot ⟨ttl⟩ now k maxConcurrency requestID =
      (⟨(ZREMRANGEBYSCORE k (now - ttl)).members.map
          (fun e => if e.1 = requestID then (requestID, now) else e), some (now + ttl)⟩,
        (true, none)) := by
    have hexp := expireEffect_of_pos _ now ttl hne httl
    rw [hadd] at hexp
    unfold AcquireAccountSlot
    simp only [hscript, hadd, hexp, grantedOf]
    rfl
  rw [hr]
  refine ⟨rfl, map_fst_update _ _ _, ?_, ?_, ?_, rfl⟩
  · simp [ZCARD]
  · exact lookup_update_self _ _ s _ hmem
  · intro m hm
    exact lookup_update_other _ _ _ _ hm

/-- Witness of C3: the holder of a slot re-acquires with limit 0. -/
theorem C3_idempotent_reacquire_witness :
    expireAccepts 130 900 = true ∧
    ((0 : Int) < 900 ∨
      ∀ e ∈ (⟨[("A", 100), ("B", 120)], some 1020⟩ : SortedSetKey).members, e.2 ≤ 130) ∧
    ZSCORE (ZREMRANGEBYSCORE ⟨[("A", 100), ("B", 120)], some 1020⟩ (130 - 900)) "A"
      = some 100 ∧
    (AcquireAccountSlot ⟨900⟩ 130 ⟨[("A", 100), ("B", 120)], some 1020⟩ 0 "A").2
      = (true, none) ∧
    AcquireAccountSlot ⟨900⟩ 130 ⟨[("A", 100), ("B", 120)], some 1020⟩ 0 "A" =
      (⟨[("A", 130), ("B", 120)], some 1030⟩, (true, none)) :=
  ⟨by decide, Or.inl (by decide), by decide,
    (C3_idempotent_reacquire 130 900 0 ⟨[("A", 100), ("B", 120)], some 1020⟩ "A" 100
      (by decide) (Or.inl (by decide)) (by decide)).1,
    by decide⟩

/-- C4, as stated, fails for a TTL the store refuses.  With the TTL
9223372036854775800 (what `NewConcurrencyCache` configures for 153722867280912930
minutes) no member of the ledger that does not exist is younger than
`now - ttl`, and GetConcurrency answers 0; yet the acquire of the fresh
identifier `B` with `maxConcurrency = 1` is not granted: the `EXPIRE` after the
`ZADD` is refused and the method returns `(false, err)`.  The scenario of the
claim fails in the same way: with `t = 0` and `t' = 9223372036854775801`, so
that `t' - t > ttl`, acquire(A), GetConcurrency and acquire(B) answer false, 0
and false. -/
theorem C4_expiry_counterexample :
    (NewConcurrencyCache 64 153722867280912930).slotTTLSeconds = 9223372036854775800 ∧
    (∀ e ∈ absent.members, e.2 < 100 - 9223372036854775800) ∧
    GetAccountConcurrency ⟨9223372036854775800⟩ 100 absent = (absent, (0, none)) ∧
    AcquireAccountSlot ⟨9223372036854775800⟩ 100 absent 1 "B" =
      (⟨[("B", 100)], none⟩, (false, some expireError)) ∧
    (9223372036854775801 : Int) - 0 > 9223372036854775800 ∧
    ledgerReplies ⟨9223372036854775800⟩ absent
      [.acquire 0 1 "A", .getConcurrency 9223372036854775801,
        .acquire 9223372036854775801 1 "B"]
      = [.granted false, .count 0, .granted false] := by
  decide

/-- C4 (TTL expiry), amended to a TTL that the store accepts.  For every
well-formed key, store time and TTL: a member `m` whose score `s` is older than
`now - ttl` is not counted by GetConcurrency (the reply is the cardinality of
the key it leaves, below the earlier one) and is no member after
GetConcurrency, nor after an acquire of any other identifier; and after an
acquire of any identifier, `m` itself included, the entry `(m, s)` is no entry
of the ledger, when the TTL is not negative or the store accepts it as an
`EXPIRE` timeout at `now`.  If every member is that old, GetConcurrency answers
0 and leaves no key, and, when the store accepts the TTL as an `EXPIRE` timeout
at `now`, an acquire of any identifier with `maxConcurrency ≥ 1` is granted
without error.  Scenario C: acquire(A) at `t`, then at any `t'` with
`t' - t > ttl`, GetConcurrency answers 0 and acquire(B) with limit 1 is
granted, when the store accepts the TTL at `t` and at `t'`. -/
theorem C4_ttl_expiry (now ttl : Int) (k : SortedSetKey) (hwf : k.WF) :
    (∀ (m : String) (s : Int), ZSCORE k m = some s → s < now - ttl →
      ZSCORE (GetAccountConcurrency ⟨ttl⟩ now k).1 m = none ∧
      (GetAccountConcurrency ⟨ttl⟩ now k).2.1 = ZCARD (GetAccountConcurrency ⟨ttl⟩ now k).1 ∧
      (GetAccountConcurrency ⟨ttl⟩ now k).2.1 < ZCARD k ∧
      (∀ (maxConcurrency : Int) (requestID : String), requestID ≠ m →
        ZSCORE (AcquireAccountSlot ⟨ttl⟩ now k maxConcurrency requestID).1 m = none) ∧
      (0 ≤ ttl ∨ expireAccepts now ttl = true →
        ∀ (maxConcurrency : Int) (requestID : String),
          (m, s) ∉ (AcquireAccountSlot ⟨ttl⟩ now k maxConcurrency requestID).1.members)) ∧
    ((∀ e ∈ k.members, e.2 < now - ttl) →
      GetAccountConcurrency ⟨ttl⟩ now k = (absent, (0, none)) ∧
      (expireAccepts now ttl = true →
        ∀ (maxConcurrency : Int) (requestID : String), 1 ≤ maxConcurrency →
          (AcquireAccountSlot ⟨ttl⟩ now k maxConcurrency requestID).2 = (true, none))) ∧
    (∀ t t' : Int, t' - t > ttl → expireAccepts t ttl = true → expireAccepts t' ttl = true →
      ledgerReplies ⟨ttl⟩ absent [.acquire t 1 "A", .getConcurrency t', .acquire t' 1 "B"]
        = [.granted true, .count 0, .granted true]) := by
  refine ⟨?_, ?_, ?_⟩
  · intro m s hm hs
    have hp : (fun e : String × Int => decide (¬ e.2 ≤ now - ttl)) (m, s) = false := by
      simp only [decide_eq_false_iff_not, not_not]
      omega
    have hgone : ZSCORE (ZREMRANGEBYSCORE k (now - ttl)) m = none := by
      unfold ZSCORE
      rw [members_ZREMRANGEBYSCORE]
      exact lookup_filter_of_removed _ _ m s hwf.1 hm hp
    refine ⟨hgone, rfl, ?_, ?_, fun hcond maxConcurrency requestID =>
      not_mem_acquireScript_of_swept now k maxConcurrency ttl requestID m s hgone hs hcond⟩
    · show ZCARD (ZREMRANGEBYSCORE k (now - ttl)) < ZCARD k
      unfold ZCARD
      rw [members_ZREMRANGEBYSCORE]
      have : (k.members.filter (fun e => decide (¬ e.2 ≤ now - ttl))).length
          < k.members.length := by
        rw [List.length_filter_lt_length_iff_exists]
        exact ⟨(m, s), mem_of_lookup_eq_some _ _ _ hm, by simp only [hp]; simp⟩
      exact_mod_cast this
    · intro maxConcurrency requestID hne
      exact ZSCORE_acquireScript_other now k maxConcurrency ttl requestID m (Ne.symm hne) hgone
  · intro hall
    have hsw : ZREMRANGEBYSCORE k (now - ttl) = absent :=
      ZREMRANGEBYSCORE_eq_absent k _ (fun e he => le_of_lt (hall e he))
    refine ⟨?_, ?_⟩
    · unfold GetAccountConcurrency getCountScript
      simp only [hsw]
      rfl
    · intro hacc maxConcurrency requestID hmax
      unfold AcquireAccountSlot
      rw [← acquireScript_sweep, hsw, acquireScript_absent _ _ _ _ hmax hacc]
      rfl
  · intro t t' hgap hacc hacc'
    have hstep : ∀ now' : Int, expireIfNeeded absent now' = absent := fun _ => rfl
    have hk1 : expireIfNeeded (expireEffect ⟨[("A", t)], none⟩ t ttl) t' = absent := by
      unfold expireEffect
      by_cases hpos : ttl ≤ 0
      · simp [hpos, expireIfNeeded, absent]
      · have hd : t + ttl ≤ t' := by omega
        simp [hpos, expireIfNeeded, hd]
    have hget : getCountScript t' absent ttl = (absent, 0) := by
      have hsw : ZREMRANGEBYSCORE absent (t' - ttl) = absent :=
        ZREMRANGEBYSCORE_eq_absent _ _ (fun e he => by simp [absent] at he)
      unfold getCountScript
      simp only [hsw]
      rfl
    simp only [ledgerReplies, ledgerStep, AcquireAccountSlot, GetAccountConcurrency, hstep,
      acquireScript_absent t 1 ttl "A" (le_refl (1 : Int)) hacc, hk1, hget,
      acquireScript_absent t' 1 ttl "B" (le_refl (1 : Int)) hacc', grantedOf, countOf]
    rfl

/-- Witness of C4: the stale member `A` next to the live member `B`. -/
theorem C4_ttl_expiry_witness :
    SortedSetKey.WF ⟨[("A", 0), ("B", 95)], some 105⟩ ∧
    ZSCORE (GetAccountConcurrency ⟨10⟩ 100 ⟨[("A", 0), ("B", 95)], some 105⟩).1 "A" = none ∧
    (GetAccountConcurrency ⟨10⟩ 100 ⟨[("A", 0), ("B", 95)], some 105⟩).2.1 = 1 ∧
    AcquireAccountSlot ⟨10⟩ 100 ⟨[("A", 0), ("B", 95)], some 105⟩ 2 "A" =
      (⟨[("B", 95), ("A", 100)], some 110⟩, (true, none)) :=
  ⟨by decide,
    ((C4_ttl_expiry 100 10 ⟨[("A", 0), ("B", 95)], some 105⟩ (by decide)).1 "A" 0
      (by decide) (by decide)).1,
    by decide, by decide⟩

/-- C5, as stated, fails at the boundary: a member whose age is exactly the TTL
(score 90 at store time 100 with `ttl = 10`, so `score ≥ now - ttl`) is removed
by the sweep; GetConcurrency answers 0, not 1, and leaves no member. -/
theorem C5_sweep_counterexample :
    ¬ ((90 : Int) < 100 - 10) ∧
    ZSCORE (GetAccountConcurrency ⟨10⟩ 100 ⟨[("A", 90)], some 100⟩).1 "A" = none ∧
    (GetAccountConcurrency ⟨10⟩ 100 ⟨[("A", 90)], some 100⟩).2.1 = 0 ∧
    (GetAccountConcurrency ⟨10⟩ 100 ⟨[("A", 90)], some 100⟩).2.1 ≠
      ((([("A", 90)] : List (String × Int)).filter (fun e => 100 - 10 ≤ e.2)).length : Int) ∧
    ZSCORE (AcquireAccountSlot ⟨10⟩ 100 ⟨[("A", 90)], some 100⟩ 1 "B").1 "A" = none := by
  decide

/-- C5 (sweep rule), amended at the boundary.  For every key, store time and
TTL, the sweep of GetConcurrency removes a member exactly when its score is
`≤ now - ttl` (its age is at least the TTL) and keeps every member with
`now - ttl < score`: GetConcurrency leaves exactly those entries, scores
unchanged, and answers their number without error.  Acquire performs the same
sweep: its outcome is the one it has on the swept key, an entry of another
identifier with score `≤ now - ttl` is gone afterwards, and (for a positive
TTL) an entry of another identifier with `now - ttl < score` is kept. -/
theorem C5_sweep_rule (now ttl : Int) (k : SortedSetKey) :
    (GetAccountConcurrency ⟨ttl⟩ now k).1.members =
      k.members.filter (fun e => now - ttl < e.2) ∧
    (GetAccountConcurrency ⟨ttl⟩ now k).2 =
      (((k.members.filter (fun e => now - ttl < e.2)).length : Int), none) ∧
    (∀ (m : String) (s : Int), (m, s) ∈ k.members →
      ((m, s) ∉ (GetAccountConcurrency ⟨ttl⟩ now k).1.members ↔ s ≤ now - ttl)) ∧
    (∀ (maxConcurrency : Int) (requestID : String),
      AcquireAccountSlot ⟨ttl⟩ now k maxConcurrency requestID =
        AcquireAccountSlot ⟨ttl⟩ now (GetAccountConcurrency ⟨ttl⟩ now k).1
          maxConcurrency requestID) ∧
    (∀ (maxConcurrency : Int) (requestID m : String) (s : Int), m ≠ requestID →
      (m, s) ∈ k.members →
      (s ≤ now - ttl →
        (m, s) ∉ (AcquireAccountSlot ⟨ttl⟩ now k maxConcurrency requestID).1.members) ∧
      (0 < ttl → now - ttl < s →
        (m, s) ∈ (AcquireAccountSlot ⟨ttl⟩ now k maxConcurrency requestID).1.members)) := by
  have hfilter : k.members.filter (fun e => decide (¬ e.2 ≤ now - ttl)) =
      k.members.filter (fun e => decide (now - ttl < e.2)) := by
    congr 1
    funext e
    simp
  have hmem : (ZREMRANGEBYSCORE k (now - ttl)).members =
      k.members.filter (fun e => now - ttl < e.2) := by
    rw [members_ZREMRANGEBYSCORE, hfilter]
  refine ⟨hmem, ?_, ?_, ?_, ?_⟩
  · show (ZCARD (ZREMRANGEBYSCORE k (now - ttl)), (none : Option String)) = _
    unfold ZCARD
    rw [hmem]
  · intro m s hms
    show (m, s) ∉ (ZREMRANGEBYSCORE k (now - ttl)).members ↔ _
    rw [hmem, List.mem_filter]
    simp only [hms, true_and, decide_eq_true_eq, not_lt]
  · intro maxConcurrency requestID
    simp only [AcquireAccountSlot, GetAccountConcurrency, getCountScript, acquireScript_sweep]
  · intro maxConcurrency requestID m s hne hms
    refine ⟨fun hold hin => ?_, fun httl hlive => ?_⟩
    · have := mem_sweep_of_mem_acquireScript now k maxConcurrency ttl requestID m s hne hin
      rw [hmem, List.mem_filter] at this
      have hlt : now - ttl < s := by simpa using this.2
      omega
    · apply mem_acquireScript_of_mem_sweep now k maxConcurrency ttl requestID m s hne httl
      rw [hmem, List.mem_filter]
      exact ⟨hms, by simpa using hlive⟩

/-- C6 (idempotent release).  For every key and identifiers `r`, `r'`:
release reports no error and leaves exactly the entries of the other
identifiers, scores untouched, and `r` is no member afterwards; releasing an
identifier that is no member of a well-formed key leaves the key unchanged;
releasing twice equals releasing once; two releases commute.  The user variant
is the same operation. -/
theorem C6_idempotent_release (k : SortedSetKey) (r r' : String) :
    (ReleaseAccountSlot k r).2 = none ∧
    (ReleaseAccountSlot k r).1.members = k.members.filter (fun e => e.1 ≠ r) ∧
    ZSCORE (ReleaseAccountSlot k r).1 r = none ∧
    (∀ m : String, m ≠ r → ZSCORE (ReleaseAccountSlot k r).1 m = ZSCORE k m) ∧
    (k.WF → ZSCORE k r = none → ReleaseAccountSlot k r = (k, none)) ∧
    ReleaseAccountSlot (ReleaseAccountSlot k r).1 r = ReleaseAccountSlot k r ∧
    (ReleaseAccountSlot (ReleaseAccountSlot k r).1 r').1 =
      (ReleaseAccountSlot (ReleaseAccountSlot k r').1 r).1 ∧
    ReleaseUserSlot k r = ReleaseAccountSlot k r := by
  refine ⟨rfl, members_ZREM k r, ?_, ?_, ?_, ?_, ZREM_comm k r r', rfl⟩
  · show ZSCORE (ZREM k r) r = none
    unfold ZSCORE
    rw [members_ZREM]
    exact lookup_filter_key_self _ _
  · intro m hm
    show ZSCORE (ZREM k r) m = ZSCORE k m
    unfold ZSCORE
    rw [members_ZREM]
    exact lookup_filter_key_other _ _ _ hm
  · intro hwf hnone
    show (ZREM k r, _) = (k, none)
    rw [ZREM_of_not_member k r hwf hnone]
    rfl
  · show (ZREM (ZREM k r) r, _) = (ZREM k r, _)
    rw [ZREM_idem]
    rfl

/-- C7 (a denied acquire does not mutate).  For every key, store time, TTL,
limit and identifier for which the acquire is denied, that is, answers `false`
without error (a failure of the store is no denial): the script has answered 0
and the key afterwards is exactly the one the sweep alone (GetConcurrency)
leaves.  So `requestID` is not added, every entry afterwards was there before
with the same score, every entry with `now - ttl < score` is kept, the deadline
of a surviving key is the earlier one, and when no member of a well-formed key
is expired the key, deadline included, is unchanged. -/
theorem C7_denied_acquire_no_mutation (now ttl maxConcurrency : Int) (k : SortedSetKey)
    (requestID : String)
    (hdenied : (AcquireAccountSlot ⟨ttl⟩ now k maxConcurrency requestID).2 = (false, none)) :
    (acquireScript now k maxConcurrency ttl requestID).2 = .ok 0 ∧
    (AcquireAccountSlot ⟨ttl⟩ now k maxConcurrency requestID).1 =
      (GetAccountConcurrency ⟨ttl⟩ now k).1 ∧
    ZSCORE (AcquireAccountSlot ⟨ttl⟩ now k maxConcurrency requestID).1 requestID = none ∧
    (∀ e : String × Int,
      e ∈ (AcquireAccountSlot ⟨ttl⟩ now k maxConcurrency requestID).1.members ↔
        e ∈ k.members ∧ now - ttl < e.2) ∧
    ((AcquireAccountSlot ⟨ttl⟩ now k maxConcurrency requestID).1.members ≠ [] →
      (AcquireAccountSlot ⟨ttl⟩ now k maxConcurrency requestID).1.expireAt = k.expireAt) ∧
    (k.WF → (∀ e ∈ k.members, now - ttl < e.2) →
      (AcquireAccountSlot ⟨ttl⟩ now k maxConcurrency requestID).1 = k) := by
  obtain ⟨hkey, hnew, hfull⟩ := acquireScript_denied now k maxConcurrency ttl requestID hdenied
  have hreply : (acquireScript now k maxConcurrency ttl requestID).2 = .ok 0 := by
    rw [acquireScript_of_new _ _ _ _ _ hnew]
    simp only [hfull, if_false]
  have hk : (AcquireAccountSlot ⟨ttl⟩ now k maxConcurrency requestID).1 =
      ZREMRANGEBYSCORE k (now - ttl) := hkey
  rw [hk]
  refine ⟨hreply, rfl, hnew, ?_, ?_, ?_⟩
  · intro e
    rw [members_ZREMRANGEBYSCORE, List.mem_filter]
    simp
  · intro hne
    have hne' : k.members.filter (fun e => ¬ e.2 ≤ now - ttl) ≠ [] := by
      rw [← members_ZREMRANGEBYSCORE]
      exact hne
    unfold ZREMRANGEBYSCORE
    rw [ofMembers_of_ne_nil _ hne']
  · intro hwf hlive
    exact ZREMRANGEBYSCORE_eq_self k _ hwf (fun e he => by have := hlive e he; omega)

/-- Witness of C7: a third identifier denied at limit 2 with nothing expired. -/
theorem C7_denied_acquire_no_mutation_witness :
    (AcquireAccountSlot ⟨900⟩ 130 ⟨[("A", 100), ("B", 120)], some 1020⟩ 2 "C").2
      = (false, none) ∧
    (AcquireAccountSlot ⟨900⟩ 130 ⟨[("A", 100), ("B", 120)], some 1020⟩ 2 "C").1 =
      ⟨[("A", 100), ("B", 120)], some 1020⟩ :=
  ⟨by decide,
    (C7_denied_acquire_no_mutation 130 900 2 ⟨[("A", 100), ("B", 120)], some 1020⟩ "C"
      (by decide)).2.2.2.2.2 (by decide) (by decide)⟩

/-- C8, as stated, fails at both ends of the TTL range.  With the TTL
9223372036854775800 (what `NewConcurrencyCache` configures for 153722867280912930
minutes) an increment of the counter that does not exist (value 0, below
`maxWait = 1`) is not granted: the `EXPIRE` after the `INCR` is refused, the
method returns `(false, err)`, and the counter is not unchanged either, the
key now exists with value 1 and no deadline.  With the TTL 0 the same increment
is granted, but the `EXPIRE` with a zero timeout removes the key the `INCR` has
just created, so the counter still reads 0 and not 1. -/
theorem C8_wait_counter_counterexample :
    (NewConcurrencyCache 64 153722867280912930).slotTTLSeconds = 9223372036854775800 ∧
    WaitKey.count (none : WaitKey) < 1 ∧
    IncrementWaitCount ⟨9223372036854775800⟩ 100 none 1 =
      (some ⟨1, none⟩, (false, some expireError)) ∧
    (IncrementWaitCount ⟨0⟩ 100 none 1).2.1 = true ∧
    WaitKey.count (IncrementWaitCount ⟨0⟩ 100 none 1).1 ≠
      WaitKey.count (none : WaitKey) + 1 := by
  decide

/-- C8 (wait counter bound), amended to a positive TTL that the store accepts.
For every counter key (value `c`, read as 0 when the key does not exist),
store time and `maxWait = W`: when the store accepts the TTL as an `EXPIRE`
timeout at `now` (or `c ≠ 0`, so that no `EXPIRE` is due), IncrementWaitCount is
granted exactly when `c < W`, without error; when granted the counter becomes
`c + 1`, provided the TTL is positive and accepted (or `c ≠ 0`); when `c ≥ W`
the method answers `(false, nil)` and the key (value, existence, deadline) is
unchanged, for every TTL, and so it is whenever the method answers
`(false, nil)`.  Starting from the key that does not exist, for every `W ≥ 0`,
every TTL and every sequence of increments with `maxWait = W` and decrements,
the counter never exceeds `W`.  Scenario B: with `W = 1` and the TTL 900,
increment, increment, decrement, increment answer true, false, -, true. -/
theorem C8_wait_counter_bound (c : concurrencyCache) (now W : Int) (k : WaitKey) :
    (expireAccepts now c.slotTTLSeconds = true ∨ WaitKey.count k ≠ 0 →
      ((IncrementWaitCount c now k W).2.1 = true ↔ WaitKey.count k < W) ∧
      (IncrementWaitCount c now k W).2.2 = none) ∧
    ((0 < c.slotTTLSeconds ∧ expireAccepts now c.slotTTLSeconds = true) ∨
        WaitKey.count k ≠ 0 →
      (IncrementWaitCount c now k W).2.1 = true →
      WaitKey.count (IncrementWaitCount c now k W).1 = WaitKey.count k + 1) ∧
    (¬ WaitKey.count k < W → IncrementWaitCount c now k W = (k, (false, none))) ∧
    ((IncrementWaitCount c now k W).2 = (false, none) → (IncrementWaitCount c now k W).1 = k) ∧
    (0 ≤ W → ∀ calls : List WaitCall, allIncrementWith W calls = true →
      ∀ n : Nat, WaitKey.count (waitRun c none (calls.take n)) ≤ W) ∧
    waitReplies ⟨900⟩ none
      [.increment 100 1, .increment 101 1, .decrement 102, .increment 103 1]
      = [some true, some false, none, some true] := by
  refine ⟨fun hacc => IncrementWaitCount_granted_iff c now W k hacc, ?_, ?_, ?_, ?_, by decide⟩
  · intro hcond hgr
    have hgr' : (grantedOf (incrementWaitScript now k W c.slotTTLSeconds).2).1 = true := hgr
    show WaitKey.count (incrementWaitScript now k W c.slotTTLSeconds).1 = _
    rw [incrementWaitScript_eq] at hgr' ⊢
    by_cases hlt : WaitKey.count k < W
    · by_cases h1 : WaitKey.count k + 1 = 1
      · have h0 : WaitKey.count k = 0 := by omega
        have hboth : 0 < c.slotTTLSeconds ∧ expireAccepts now c.slotTTLSeconds = true := by
          rcases hcond with h | h
          · exact h
          · exact absurd h0 h
        have hpos : ¬ c.slotTTLSeconds ≤ 0 := by omega
        simp only [hlt, h1, hboth.2, if_true, WaitKey.expireEffect, hpos, if_false]
        simp only [WaitKey.count, WaitKey.GET, Option.map_some', Option.getD_some]
      · simp only [hlt, h1, if_true, if_false]
        simp only [WaitKey.count, WaitKey.GET, Option.map_some', Option.getD_some]
    · simp [hlt, grantedOf] at hgr'
  · intro hnlt
    show ((incrementWaitScript now k W c.slotTTLSeconds).1,
      grantedOf (incrementWaitScript now k W c.slotTTLSeconds).2) = _
    rw [incrementWaitScript_denied _ _ _ _ hnlt]
    rfl
  · intro hden
    have hden' : grantedOf (incrementWaitScript now k W c.slotTTLSeconds).2 = (false, none) :=
      hden
    show (incrementWaitScript now k W c.slotTTLSeconds).1 = k
    rw [incrementWaitScript_eq] at hden' ⊢
    by_cases hlt : WaitKey.count k < W
    · by_cases h1 : WaitKey.count k + 1 = 1
      · by_cases ha : expireAccepts now c.slotTTLSeconds = true
        · simp [hlt, h1, ha, grantedOf] at hden'
        · simp [hlt, h1, ha, grantedOf] at hden'
      · simp [hlt, h1, grantedOf] at hden'
    · simp only [hlt, if_false]
  · intro hW calls hcalls n
    exact (count_waitRun c W hW (calls.take n) none (allIncrementWith_take W calls n hcalls)
      ⟨le_refl _, hW⟩).2

/-- Witness of C8: the first and the second waiter admitted at `maxWait = 3`. -/
theorem C8_wait_counter_bound_witness :
    (((0 : Int) < 900 ∧ expireAccepts 130 900 = true) ∨ WaitKey.count (none : WaitKey) ≠ 0) ∧
    (IncrementWaitCount ⟨900⟩ 130 none 3).2.1 = true ∧
    WaitKey.count (IncrementWaitCount ⟨900⟩ 130 none 3).1 = WaitKey.count (none : WaitKey) + 1 ∧
    IncrementWaitCount ⟨900⟩ 130 (some ⟨1, some 1000⟩) 3 = (some ⟨2, some 1000⟩, (true, none)) :=
  ⟨Or.inl ⟨by decide, by decide⟩, by decide,
    (C8_wait_counter_bound ⟨900⟩ 130 3 none).2.1 (Or.inl ⟨by decide, by decide⟩) (by decide),
    by decide⟩

/-- C9 (non-negative wait counter).  For every counter key, DecrementWaitCount
reports no error; a key that does not exist stays so (it is not created), the
value 0 stays 0 and a value `v > 0` becomes `v - 1`, the deadline being kept;
a non-negative counter stays non-negative.  Hence, starting from the key that
does not exist, the counter is `≥ 0` after every sequence of increments (with
any `maxWait`) and decrements. -/
theorem C9_nonnegative_wait_counter (k : WaitKey) :
    (DecrementWaitCount k).2 = none ∧
    DecrementWaitCount none = (none, none) ∧
    (∀ e : Option Int, DecrementWaitCount (some ⟨0, e⟩) = (some ⟨0, e⟩, none)) ∧
    (∀ (v : Int) (e : Option Int), 0 < v →
      DecrementWaitCount (some ⟨v, e⟩) = (some ⟨v - 1, e⟩, none)) ∧
    (0 ≤ WaitKey.count k → 0 ≤ WaitKey.count (DecrementWaitCount k).1) ∧
    (∀ (c : concurrencyCache) (calls : List WaitCall) (n : Nat),
      0 ≤ WaitKey.count (waitRun c none (calls.take n))) := by
  refine ⟨rfl, rfl, fun e => ?_, fun v e hv => ?_, (count_decrementWaitScript k).1,
    fun c calls n => count_nonneg_waitRun c _ none (le_refl _)⟩
  · show ((decrementWaitScript (some ⟨0, e⟩)).1, _) = _
    rw [decrementWaitScript_some]
    rfl
  · show ((decrementWaitScript (some ⟨v, e⟩)).1, _) = _
    rw [decrementWaitScript_some]
    simp only [hv, if_true]
    rfl

/-- C10 (wait counter expiry rule).  For every counter key (value `c`, 0 when
the key does not exist), store time, TTL and `maxWait`: a granted increment
applies `EXPIRE key ttl` to the incremented key exactly when the value after
the increment, `c + 1`, is 1, which is when the key did not exist or held 0
(the key after the call is then the one that `EXPIRE`, accepted, answers);
for a positive TTL the key then holds 1 with deadline `now + ttl` (a
non-positive TTL makes that `EXPIRE` remove the key).  A granted increment to
any other value leaves the deadline as it was; an increment that is not granted
leaves the deadline as it was, and the whole key as it was when it is denied
(`false` without error); a decrement leaves the deadline as it was. -/
theorem C10_wait_expiry_rule (now ttl W : Int) (k : WaitKey) :
    ((IncrementWaitCount ⟨ttl⟩ now k W).2.1 = true → WaitKey.count k + 1 = 1 →
      WaitKey.EXPIRE (some ⟨1, WaitKey.deadline k⟩) now ttl =
        .ok (IncrementWaitCount ⟨ttl⟩ now k W).1 ∧
      (0 < ttl → (IncrementWaitCount ⟨ttl⟩ now k W).1 = some ⟨1, some (now + ttl)⟩) ∧
      (ttl ≤ 0 → (IncrementWaitCount ⟨ttl⟩ now k W).1 = none)) ∧
    ((IncrementWaitCount ⟨ttl⟩ now k W).2.1 = true → WaitKey.count k + 1 ≠ 1 →
      (IncrementWaitCount ⟨ttl⟩ now k W).1 =
        some ⟨WaitKey.count k + 1, WaitKey.deadline k⟩ ∧
      WaitKey.deadline (IncrementWaitCount ⟨ttl⟩ now k W).1 = WaitKey.deadline k) ∧
    (WaitKey.count k + 1 = 1 ↔ k = none ∨ ∃ e : Option Int, k = some ⟨0, e⟩) ∧
    ((IncrementWaitCount ⟨ttl⟩ now k W).2.1 = false →
      WaitKey.deadline (IncrementWaitCount ⟨ttl⟩ now k W).1 = WaitKey.deadline k) ∧
    ((IncrementWaitCount ⟨ttl⟩ now k W).2 = (false, none) →
      (IncrementWaitCount ⟨ttl⟩ now k W).1 = k) ∧
    WaitKey.deadline (DecrementWaitCount k).1 = WaitKey.deadline k := by
  have hscript := incrementWaitScript_eq now k W ttl
  have hfst : (IncrementWaitCount ⟨ttl⟩ now k W).1 = (incrementWaitScript now k W ttl).1 := rfl
  have hsnd : (IncrementWaitCount ⟨ttl⟩ now k W).2 =
      grantedOf (incrementWaitScript now k W ttl).2 := rfl
  rw [hfst, hsnd, hscript]
  refine ⟨?_, ?_, ?_, ?_, ?_, deadline_decrementWaitScript k⟩
  · intro hgr h1
    by_cases hlt : WaitKey.count k < W
    · by_cases ha : expireAccepts now ttl = true
      · simp only [hlt, h1, ha, if_true] at hgr ⊢
        refine ⟨?_, fun hpos => ?_, fun hnp => ?_⟩
        · simp only [WaitKey.EXPIRE, ha, if_true]
        · have : ¬ ttl ≤ 0 := by omega
          simp [WaitKey.expireEffect, this]
        · simp [WaitKey.expireEffect, hnp]
      · simp [hlt, h1, ha, grantedOf] at hgr
    · simp [hlt, grantedOf] at hgr
  · intro hgr h1
    by_cases hlt : WaitKey.count k < W
    · rw [if_pos hlt, if_neg h1]
      exact ⟨rfl, rfl⟩
    · simp [hlt, grantedOf] at hgr
  · cases k with
    | none => simp [WaitKey.count, WaitKey.GET]
    | some c =>
      obtain ⟨v, e⟩ := c
      simp only [WaitKey.count, WaitKey.GET, Option.map_some', Option.getD_some]
      constructor
      · intro h
        have hv : v = 0 := by omega
        subst hv
        exact Or.inr ⟨e, rfl⟩
      · rintro (h | ⟨e', h⟩)
        · exact Option.noConfusion h
        · have := congrArg Counter.value (Option.some.inj h)
          simp only at this
          omega
  · intro hden
    by_cases hlt : WaitKey.count k < W
    · by_cases h1 : WaitKey.count k + 1 = 1
      · by_cases ha : expireAccepts now ttl = true
        · simp [hlt, h1, ha, grantedOf] at hden
        · simp [hlt, h1, ha, WaitKey.deadline]
      · simp [hlt, h1, grantedOf] at hden
    · simp only [hlt, if_false]
  · intro hden
    by_cases hlt : WaitKey.count k < W
    · by_cases h1 : WaitKey.count k + 1 = 1
      · by_cases ha : expireAccepts now ttl = true
        · simp [hlt, h1, ha, grantedOf] at hden
        · simp [hlt, h1, ha, grantedOf] at hden
      · simp [hlt, h1, grantedOf] at hden
    · simp only [hlt, if_false]

/-- C11: the code evaluated where the claim fails.  With a TTL of 900, an
increment at store time 100 and a decrement at 101 leave the counter key in
existence with value 0 and deadline 1000; the increment issued at store time
500 then moves the deadline of that existing key to 1400 (the script tests
`newVal == 1`, not whether the key was created). -/
theorem C11_expiry_refreshed_at_zero :
    waitRun ⟨900⟩ none [.increment 100 5, .decrement 101] = some ⟨0, some 1000⟩ ∧
    IncrementWaitCount ⟨900⟩ 500 (some ⟨0, some 1000⟩) 5 =
      (some ⟨1, some 1400⟩, (true, none)) ∧
    WaitKey.deadline (IncrementWaitCount ⟨900⟩ 500 (some ⟨0, some 1000⟩) 5).1 ≠
      WaitKey.deadline (some ⟨0, some 1000⟩) := by
  decide

/-- C12, as stated, fails after a re-acquire: acquire(A) and acquire(B) are
granted with limit 2, then acquire(A) with limit 1 is granted (A holds a slot),
so the most recent granted acquisition passed 1 while GetConcurrency still
counts 2 members after its sweep.  It also fails where the store refuses the
`EXPIRE` of an acquire, which then is not granted though its member stays:
with the TTL 9223372036854775800 the ledger holds `A` and no acquire was ever
granted; and with the TTL 900, after acquire(A) is granted with limit 1 at
store time 9223372036853874, the acquire of `B` with limit 5 two seconds later
(where the deadline would leave the store's 64-bit milliseconds) fails and
leaves two members. -/
theorem C12_per_call_limit_counterexample :
    ledgerReplies ⟨900⟩ absent
      [.acquire 100 2 "A", .acquire 101 2 "B", .acquire 102 1 "A", .getConcurrency 103]
      = [.granted true, .granted true, .granted true, .count 2] ∧
    lastGrantedLimit ⟨900⟩ absent none
      [.acquire 100 2 "A", .acquire 101 2 "B", .acquire 102 1 "A", .getConcurrency 103]
      = some 1 ∧
    liveCount (ledgerRun ⟨900⟩ absent
      [.acquire 100 2 "A", .acquire 101 2 "B", .acquire 102 1 "A", .getConcurrency 103])
      103 900 = 2 ∧
    lastGrantedLimit ⟨9223372036854775800⟩ absent none [.acquire 100 1 "A"] = none ∧
    ledgerRun ⟨9223372036854775800⟩ absent [.acquire 100 1 "A"] = ⟨[("A", 100)], none⟩ ∧
    ledgerReplies ⟨900⟩ absent
      [.acquire 9223372036853874 1 "A", .acquire 9223372036853876 5 "B"]
      = [.granted true, .granted false] ∧
    lastAdmittedLimit ⟨900⟩ absent none
      [.acquire 9223372036853874 1 "A", .acquire 9223372036853876 5 "B"] = some 1 ∧
    ZCARD (ledgerRun ⟨900⟩ absent
      [.acquire 9223372036853874 1 "A", .acquire 9223372036853876 5 "B"]) = 2 := by
  decide

/-- C12 (ledger invariant with a per-call limit), amended to admissions and to
a TTL that the store accepts.  For every key reached from the one that does
not exist through acquires with arbitrary per-call limits, releases and
GetConcurrency calls (any TTL and any store times at which the store accepts
the TTL as an `EXPIRE` timeout), the number of members, and so the number of
unexpired members at any time, does not exceed the `maxConcurrency` passed by
the most recent granted acquire that admitted a new identifier; before any
such acquire the ledger is empty.  A granted re-acquire of a held identifier
does not count: it is granted whatever its limit. -/
theorem C12_per_call_limit (c : concurrencyCache) (calls : List LedgerCall)
    (hacc : timeoutAccepted c calls = true) :
    (∀ M : Int, lastAdmittedLimit c absent none calls = some M →
      ZCARD (ledgerRun c absent calls) ≤ M ∧
      ∀ now : Int, liveCount (ledgerRun c absent calls) now c.slotTTLSeconds ≤ M) ∧
    (lastAdmittedLimit c absent none calls = none →
      (ledgerRun c absent calls).members = []) := by
  have h := ZCARD_le_lastAdmitted c calls absent none hacc (by decide)
  refine ⟨fun M hM => ?_, fun hnone => ?_⟩
  · rw [hM] at h
    exact ⟨h, fun now => le_trans (liveCount_le_ZCARD _ _ _) h⟩
  · rw [hnone] at h
    have h0 : ((ledgerRun c absent calls).members.length : Int) ≤ 0 := h
    have : (ledgerRun c absent calls).members.length = 0 := by omega
    exact List.length_eq_zero.mp this

/-- Witness of C12: after the re-acquire of `A` with limit 1, the two members
are within the limit 2 of the last acquire that admitted an identifier. -/
theorem C12_per_call_limit_witness :
    timeoutAccepted ⟨900⟩
      [.acquire 100 2 "A", .acquire 101 2 "B", .acquire 102 1 "A", .getConcurrency 103]
      = true ∧
    lastAdmittedLimit ⟨900⟩ absent none
      [.acquire 100 2 "A", .acquire 101 2 "B", .acquire 102 1 "A", .getConcurrency 103]
      = some 2 ∧
    ZCARD (ledgerRun ⟨900⟩ absent
      [.acquire 100 2 "A", .acquire 101 2 "B", .acquire 102 1 "A", .getConcurrency 103])
      ≤ 2 :=
  ⟨by decide, by decide,
    ((C12_per_call_limit ⟨900⟩
      [.acquire 100 2 "A", .acquire 101 2 "B", .acquire 102 1 "A", .getConcurrency 103]
      (by decide)).1 2 (by decide)).1⟩

/-- C13, as stated, fails when the product overflows: with a 64-bit `int`,
`slotTTLMinutes = 2^62` is positive, yet the configured TTL is 0 seconds and
not `2^62 * 60`. -/
theorem C13_ttl_overflow_counterexample :
    (0 : Int) < 4611686018427387904 ∧
    (NewConcurrencyCache 64 4611686018427387904).slotTTLSeconds = 0 ∧
    (NewConcurrencyCache 64 4611686018427387904).slotTTLSeconds ≠
      4611686018427387904 * 60 := by
  decide

/-- C13 (TTL normalization), amended for overflow.  For an `int` of 32 or 64
bits and every `slotTTLMinutes`: the configured TTL is 900 seconds when
`slotTTLMinutes ≤ 0`; otherwise it is `slotTTLMinutes * 60` reduced to the `int`
range, which is the exact product whenever that product fits.  This one value
is the TTL argument of every acquire, GetConcurrency and IncrementWaitCount
script run. -/
theorem C13_ttl_normalization (bits : Nat) (slotTTLMinutes : Int)
    (hbits : bits = 32 ∨ bits = 64) :
    (slotTTLMinutes ≤ 0 → (NewConcurrencyCache bits slotTTLMinutes).slotTTLSeconds = 900) ∧
    (0 < slotTTLMinutes →
      (NewConcurrencyCache bits slotTTLMinutes).slotTTLSeconds =
        wrapInt bits (slotTTLMinutes * 60)) ∧
    (0 < slotTTLMinutes → slotTTLMinutes * 60 < 2 ^ (bits - 1) →
      (NewConcurrencyCache bits slotTTLMinutes).slotTTLSeconds = slotTTLMinutes * 60) ∧
    (∀ (c : concurrencyCache) (now maxConcurrency : Int) (k : SortedSetKey)
        (requestID : String),
      (AcquireAccountSlot c now k maxConcurrency requestID).1 =
        (acquireScript now k maxConcurrency c.slotTTLSeconds requestID).1 ∧
      (AcquireUserSlot c now k maxConcurrency requestID).1 =
        (acquireScript now k maxConcurrency c.slotTTLSeconds requestID).1 ∧
      (GetAccountConcurrency c now k).1 = (getCountScript now k c.slotTTLSeconds).1 ∧
      (GetUserConcurrency c now k).1 = (getCountScript now k c.slotTTLSeconds).1) ∧
    (∀ (c : concurrencyCache) (now maxWait : Int) (k : WaitKey),
      (IncrementWaitCount c now k maxWait).1 =
        (incrementWaitScript now k maxWait c.slotTTLSeconds).1) := by
  refine ⟨fun hle => ?_, fun hpos => ?_, fun hpos hfit => ?_,
    fun _ _ _ _ _ => ⟨rfl, rfl, rfl, rfl⟩, fun _ _ _ _ => rfl⟩
  · have h900 : wrapInt bits 900 = 900 := by
      apply wrapInt_of_fits bits 900 hbits (by decide)
      rcases hbits with rfl | rfl <;> norm_num
    simp only [NewConcurrencyCache, hle, if_true, defaultSlotTTLMinutes]
    exact h900
  · have hnle : ¬ slotTTLMinutes ≤ 0 := by omega
    simp only [NewConcurrencyCache, hnle, if_false]
  · have hnle : ¬ slotTTLMinutes ≤ 0 := by omega
    simp only [NewConcurrencyCache, hnle, if_false]
    exact wrapInt_of_fits bits _ hbits (by omega) hfit

/-- Witness of C13: 15 minutes on a 64-bit platform. -/
theorem C13_ttl_normalization_witness :
    ((64 : Nat) = 32 ∨ (64 : Nat) = 64) ∧
    (NewConcurrencyCache 64 15).slotTTLSeconds = 15 * 60 ∧
    (NewConcurrencyCache 64 (-3)).slotTTLSeconds = 900 :=
  ⟨Or.inr rfl,
    (C13_ttl_normalization 64 15 (Or.inr rfl)).2.2.1 (by decide) (by decide),
    (C13_ttl_normalization 64 (-3) (Or.inr rfl)).1 (by decide)⟩

/-- C14 (failure versus denial).  With the store round trip either an error
`e` or an integer reply `n`: the acquire and increment methods return
`(false, e)` on an error and `(n == 1, nil)` otherwise, the GetConcurrency
methods `(0, e)` or `(n, nil)`, release and decrement `e` or `nil`.  So an
error is returned exactly when the round trip failed and it is the store's
error; a denial (reply 0) is `(false, nil)`; no failure returns what a reply
returns; and the methods hand back exactly this treatment of the outcome of
the script run, which is the script's reply or the error of the command the
store refused. -/
theorem C14_failure_versus_denial (e : String) (n : Int) :
    grantedOf (.error e) = (false, some e) ∧
    grantedOf (.ok n) = (n == 1, none) ∧
    countOf (.error e) = (0, some e) ∧
    countOf (.ok n) = (n, none) ∧
    errOf (.error e) = some e ∧
    errOf (.ok n) = none ∧
    (∀ r : RunResult, (grantedOf r).2 ≠ none ↔ ∃ err, r = .error err) ∧
    (∀ r : RunResult, (countOf r).2 ≠ none ↔ ∃ err, r = .error err) ∧
    (∀ r : RunResult, ∀ err, (grantedOf r).2 = some err → r = .error err) ∧
    (∀ r : RunResult, ∀ err, (countOf r).2 = some err → r = .error err) ∧
    grantedOf (.ok 0) = (false, none) ∧
    grantedOf (.error e) ≠ grantedOf (.ok n) ∧
    countOf (.error e) ≠ countOf (.ok n) ∧
    (∀ (c : concurrencyCache) (now maxConcurrency : Int) (k : SortedSetKey)
        (requestID : String),
      (AcquireAccountSlot c now k maxConcurrency requestID).2 =
        grantedOf (acquireScript now k maxConcurrency c.slotTTLSeconds requestID).2 ∧
      (AcquireUserSlot c now k maxConcurrency requestID).2 =
        grantedOf (acquireScript now k maxConcurrency c.slotTTLSeconds requestID).2 ∧
      (GetAccountConcurrency c now k).2 =
        countOf (.ok (getCountScript now k c.slotTTLSeconds).2) ∧
      (GetUserConcurrency c now k).2 =
        countOf (.ok (getCountScript now k c.slotTTLSeconds).2)) ∧
    (∀ (c : concurrencyCache) (now maxWait : Int) (k : WaitKey),
      (IncrementWaitCount c now k maxWait).2 =
        grantedOf (incrementWaitScript now k maxWait c.slotTTLSeconds).2) ∧
    AcquireAccountSlot ⟨9223372036854775800⟩ 100 absent 1 "A" =
      (⟨[("A", 100)], none⟩, (false, some expireError)) ∧
    AcquireAccountSlot ⟨900⟩ 100 ⟨[("A", 90)], some 990⟩ 1 "B" =
      (⟨[("A", 90)], some 990⟩, (false, none)) := by
  refine ⟨rfl, rfl, rfl, rfl, rfl, rfl, ?_, ?_, ?_, ?_, rfl, ?_, ?_,
    fun _ _ _ _ _ => ⟨rfl, rfl, rfl, rfl⟩, fun _ _ _ _ => rfl, by decide, by decide⟩
  · intro r
    cases r with
    | error err => simp [grantedOf]
    | ok m => simp [grantedOf]
  · intro r
    cases r with
    | error err => simp [countOf]
    | ok m => simp [countOf]
  · intro r err h
    cases r with
    | error err' =>
      simp only [grantedOf, Option.some.injEq] at h
      rw [h]
    | ok m => simp [grantedOf] at h
  · intro r err h
    cases r with
    | error err' =>
      simp only [countOf, Option.some.injEq] at h
      rw [h]
    | ok m => simp [countOf] at h
  · simp [grantedOf]
  · simp [countOf]

/-- C16, as stated, fails for a TTL the store refuses.  With the TTL
9223372036854775800, which is positive (and what `NewConcurrencyCache`
configures for 153722867280912930 minutes), one acquire at store time 100
leaves the ledger with the member `A` and no deadline: the `EXPIRE` after the
`ZADD` is refused. -/
theorem C16_key_expiry_counterexample :
    (NewConcurrencyCache 64 153722867280912930).slotTTLSeconds = 9223372036854775800 ∧
    (0 : Int) < 9223372036854775800 ∧
    monotoneClock [.acquire 100 1 "A"] = true ∧
    ledgerRun ⟨9223372036854775800⟩ absent [.acquire 100 1 "A"] = ⟨[("A", 100)], none⟩ ∧
    (ledgerRun ⟨9223372036854775800⟩ absent [.acquire 100 1 "A"]).members ≠ [] ∧
    (ledgerRun ⟨9223372036854775800⟩ absent [.acquire 100 1 "A"]).expireAt = none := by
  decide

/-- C16 (whole-key expiry never removes a live slot), amended to a TTL that
the store accepts.  For every TTL and every sequence of acquire (any limits),
release and GetConcurrency calls run, from the key that does not exist, at
non-decreasing store times at each of which the store accepts the TTL as an
`EXPIRE` timeout: the key reached has no member, or it carries a deadline `d`
with `score + ttl ≤ d` for every member; hence at every time `t ≥ d`, when the
store drops the key, every member has `score ≤ t - ttl` and a sweep at `t`
would leave no member. -/
theorem C16_key_expiry_covers_members (ttl : Int) (calls : List LedgerCall)
    (hclock : monotoneClock calls = true) (hacc : timeoutAccepted ⟨ttl⟩ calls = true) :
    (ledgerRun ⟨ttl⟩ absent calls).members = [] ∨
    ∃ d : Int, (ledgerRun ⟨ttl⟩ absent calls).expireAt = some d ∧
      (∀ e ∈ (ledgerRun ⟨ttl⟩ absent calls).members, e.2 + ttl ≤ d) ∧
      ∀ t : Int, d ≤ t →
        expireIfNeeded (ledgerRun ⟨ttl⟩ absent calls) t = absent ∧
        (∀ e ∈ (ledgerRun ⟨ttl⟩ absent calls).members, e.2 ≤ t - ttl) ∧
        ZREMRANGEBYSCORE (ledgerRun ⟨ttl⟩ absent calls) (t - ttl) = absent := by
  obtain ⟨t0, ht0⟩ := clockFrom_of_monotoneClock calls hclock
  obtain ⟨t1, hcov⟩ :=
    coveredUntil_ledgerRun ttl calls absent t0 hacc (coveredUntil_absent ttl t0) ht0
  by_cases hnil : (ledgerRun ⟨ttl⟩ absent calls).members = []
  · exact Or.inl hnil
  · right
    obtain ⟨d, hd, _, hall⟩ := hcov hnil
    refine ⟨d, hd, hall, fun t ht => ?_⟩
    have hold : ∀ e ∈ (ledgerRun ⟨ttl⟩ absent calls).members, e.2 ≤ t - ttl := by
      intro e he
      have := hall e he
      omega
    refine ⟨?_, hold, ZREMRANGEBYSCORE_eq_absent _ _ hold⟩
    simp [expireIfNeeded, hd, ht]

/-- Witness of C16: two slots taken 30 seconds apart. -/
theorem C16_key_expiry_covers_members_witness :
    monotoneClock [.acquire 100 2 "A", .acquire 130 2 "B", .getConcurrency 140] = true ∧
    timeoutAccepted ⟨900⟩ [.acquire 100 2 "A", .acquire 130 2 "B", .getConcurrency 140]
      = true ∧
    (ledgerRun ⟨900⟩ absent [.acquire 100 2 "A", .acquire 130 2 "B", .getConcurrency 140]
      = ⟨[("A", 100), ("B", 130)], some 1030⟩) ∧
    ((ledgerRun ⟨900⟩ absent
        [.acquire 100 2 "A", .acquire 130 2 "B", .getConcurrency 140]).members = [] ∨
    ∃ d : Int, (ledgerRun ⟨900⟩ absent
        [.acquire 100 2 "A", .acquire 130 2 "B", .getConcurrency 140]).expireAt = some d ∧
      (∀ e ∈ (ledgerRun ⟨900⟩ absent
        [.acquire 100 2 "A", .acquire 130 2 "B", .getConcurrency 140]).members,
          e.2 + 900 ≤ d) ∧
      ∀ t : Int, d ≤ t →
        expireIfNeeded (ledgerRun ⟨900⟩ absent
          [.acquire 100 2 "A", .acquire 130 2 "B", .getConcurrency 140]) t = absent ∧
        (∀ e ∈ (ledgerRun ⟨900⟩ absent
          [.acquire 100 2 "A", .acquire 130 2 "B", .getConcurrency 140]).members,
            e.2 ≤ t - 900) ∧
        ZREMRANGEBYSCORE (ledgerRun ⟨900⟩ absent
          [.acquire 100 2 "A", .acquire 130 2 "B", .getConcurrency 140]) (t - 900) = absent) :=
  ⟨by decide, by decide, by decide,
    C16_key_expiry_covers_members 900
      [.acquire 100 2 "A", .acquire 130 2 "B", .getConcurrency 140] (by decide) (by decide)⟩

/-- C17, as stated, fails for a TTL the store refuses.  With the TTL
9223372036854775800, which is positive (and what `NewConcurrencyCache`
configures for 153722867280912930 minutes), one IncrementWaitCount on the key
that does not exist creates the key with value 1 (`INCR`) and fails on the
refused `EXPIRE`: the key is left in existence without deadline. -/
theorem C17_wait_key_counterexample :
    (NewConcurrencyCache 64 153722867280912930).slotTTLSeconds = 9223372036854775800 ∧
    (0 : Int) < 9223372036854775800 ∧
    IncrementWaitCount ⟨9223372036854775800⟩ 100 none 5 =
      (some ⟨1, none⟩, (false, some expireError)) ∧
    waitRun ⟨9223372036854775800⟩ none [.increment 100 5] = some ⟨1, none⟩ ∧
    WaitKey.deadline (waitRun ⟨9223372036854775800⟩ none [.increment 100 5]) = none := by
  decide

/-- C17 (the wait counter key always carries an expiry), amended to a TTL that
the store accepts.  For every TTL and every sequence of IncrementWaitCount (any
`maxWait`) and DecrementWaitCount calls run, from the key that does not exist,
at arbitrary store times at each of which the store accepts the TTL as an
`EXPIRE` timeout (the key being dropped by the store whenever its deadline has
been reached): the key reached does not exist, or it exists with a deadline
set. -/
theorem C17_wait_key_has_expiry (c : concurrencyCache) (calls : List WaitCall)
    (hacc : waitTimeoutAccepted c calls = true) :
    waitRun c none calls = none ∨
    ∃ (v d : Int), waitRun c none calls = some ⟨v, some d⟩ :=
  deadline_waitRun c calls none hacc (Or.inl rfl)

/-- Witness of C17: a waiter that came and went leaves the key with its
deadline. -/
theorem C17_wait_key_has_expiry_witness :
    waitTimeoutAccepted ⟨900⟩ [.increment 100 5, .decrement 101] = true ∧
    waitRun ⟨900⟩ none [.increment 100 5, .decrement 101] = some ⟨0, some 1000⟩ ∧
    (waitRun ⟨900⟩ none [.increment 100 5, .decrement 101] = none ∨
      ∃ (v d : Int),
        waitRun ⟨900⟩ none [.increment 100 5, .decrement 101] = some ⟨v, some d⟩) :=
  ⟨by decide, by decide,
    C17_wait_key_has_expiry ⟨900⟩ [.increment 100 5, .decrement 101] (by decide)⟩

/-- C18 (scope keys never collide).  The three key functions are injective on
the integers (negative ones included, so on every int64), and their ranges are
pairwise disjoint.  So a run against the key of one account, user or wait
counter leaves the state stored under the key of every other account, user or
wait counter as it is, and answers from the state under its own key alone. -/
theorem C18_scope_keys_never_collide (i j : Int) :
    (accountSlotKey i = accountSlotKey j → i = j) ∧
    (userSlotKey i = userSlotKey j → i = j) ∧
    (waitQueueKey i = waitQueueKey j → i = j) ∧
    accountSlotKey i ≠ userSlotKey j ∧
    accountSlotKey i ≠ waitQueueKey j ∧
    userSlotKey i ≠ waitQueueKey j ∧
    accountSlotKey 42 = "concurrency:account:42" ∧
    userSlotKey (-7) = "concurrency:user:-7" ∧
    waitQueueKey 0 = "concurrency:wait:0" ∧
    (∀ (σ α : Type) (op : σ → σ × α) (store : String → σ),
      (i ≠ j → (atKey (accountSlotKey i) op store).1 (accountSlotKey j)
        = store (accountSlotKey j)) ∧
      (atKey (accountSlotKey i) op store).1 (userSlotKey j) = store (userSlotKey j) ∧
      (atKey (accountSlotKey i) op store).1 (waitQueueKey j) = store (waitQueueKey j) ∧
      (i ≠ j → (atKey (userSlotKey i) op store).1 (userSlotKey j) = store (userSlotKey j)) ∧
      (atKey (userSlotKey i) op store).1 (accountSlotKey j) = store (accountSlotKey j) ∧
      (atKey (userSlotKey i) op store).1 (waitQueueKey j) = store (waitQueueKey j) ∧
      (i ≠ j → (atKey (waitQueueKey i) op store).1 (waitQueueKey j)
        = store (waitQueueKey j)) ∧
      (atKey (waitQueueKey i) op store).1 (accountSlotKey j) = store (accountSlotKey j) ∧
      (atKey (waitQueueKey i) op store).1 (userSlotKey j) = store (userSlotKey j)) ∧
    (∀ (σ α : Type) (key : String) (op : σ → σ × α) (store store' : String → σ),
      store' key = store key → (atKey key op store').2 = (atKey key op store).2) := by
  refine ⟨accountSlotKey_injective i j, userSlotKey_injective i j, waitQueueKey_injective i j,
    accountSlotKey_ne_userSlotKey i j, accountSlotKey_ne_waitQueueKey i j,
    userSlotKey_ne_waitQueueKey i j, by decide, by decide, by decide, ?_, ?_⟩
  · intro σ α op store
    refine ⟨fun h => ?_, ?_, ?_, fun h => ?_, ?_, ?_, fun h => ?_, ?_, ?_⟩
    · exact atKey_other _ _ op store (fun heq => h (accountSlotKey_injective i j heq.symm))
    · exact atKey_other _ _ op store (fun heq => accountSlotKey_ne_userSlotKey i j heq.symm)
    · exact atKey_other _ _ op store (fun heq => accountSlotKey_ne_waitQueueKey i j heq.symm)
    · exact atKey_other _ _ op store (fun heq => h (userSlotKey_injective i j heq.symm))
    · exact atKey_other _ _ op store (accountSlotKey_ne_userSlotKey j i)
    · exact atKey_other _ _ op store (fun heq => userSlotKey_ne_waitQueueKey i j heq.symm)
    · exact atKey_other _ _ op store (fun heq => h (waitQueueKey_injective i j heq.symm))
    · exact atKey_other _ _ op store (accountSlotKey_ne_waitQueueKey j i)
    · exact atKey_other _ _ op store (userSlotKey_ne_waitQueueKey j i)
  · intro σ α key op store store' h
    exact (atKey_reads_own key op store store' h).1

end ConcurrencyCache
